import Mathlib

/-!
Verification development for the VROOM repository sources.

The definitions below are shallow embeddings of the C++ sources:
* `src/problems/cvrp/local_search/or_opt.cpp` (the or-opt local-search
  operator: `or_opt::is_valid`, `or_opt::apply`),
* the JSON input parser (`parse` in the input-parser translation unit),
* the route validator / ETA chooser (`choose_invalid_route` in
  `algorithms/validation/choose_invalid.cpp`).

Machine integers (`Duration`, `Index`, ...) are modelled as `Nat`;
amount vectors (`amount_t`) as `List Int` with componentwise operations.
-/

namespace Vroom

/-! ## Amount vectors (C++ `amount_t`) -/

/-- An amount vector: componentwise integer quantities. -/
abbrev Amount := List Int

/-- Componentwise addition (C++ `amount_t::operator+`); dimensions are
always equal in the sources, `zipWith` truncation is never reached under
the dimension hypotheses of the theorems below. -/
def amountAdd (a b : Amount) : Amount := List.zipWith (· + ·) a b

/-- Componentwise subtraction (C++ `amount_t::operator-`). -/
def amountSub (a b : Amount) : Amount := List.zipWith (· - ·) a b

/-- Componentwise comparison (C++ `operator<=` on `amount_t`). -/
def amountLE (a b : Amount) : Bool :=
  (List.zip a b).all fun p => decide (p.1 ≤ p.2)

theorem length_amountAdd (a b : Amount) :
    (amountAdd a b).length = min a.length b.length := by
  simp [amountAdd]

theorem length_amountSub (a b : Amount) :
    (amountSub a b).length = min a.length b.length := by
  simp [amountSub]

theorem amountSub_add_cancel (a m : Amount) (h : a.length = m.length) :
    amountAdd (amountSub a m) m = a := by
  induction a generalizing m with
  | nil => cases m with
    | nil => rfl
    | cons y ys => simp at h
  | cons x xs ih =>
    cases m with
    | nil => simp at h
    | cons y ys =>
      simp only [amountAdd, amountSub, List.zipWith] at *
      simp only [List.length_cons, Nat.succ.injEq] at h
      have := ih ys h
      simp only [amountAdd, amountSub] at this
      simp [this]

theorem amountAdd_sub_cancel (a m : Amount) (h : a.length = m.length) :
    amountSub (amountAdd a m) m = a := by
  induction a generalizing m with
  | nil => cases m with
    | nil => rfl
    | cons y ys => simp at h
  | cons x xs ih =>
    cases m with
    | nil => simp at h
    | cons y ys =>
      simp only [List.length_cons, Nat.succ.injEq] at h
      have := ih ys h
      simp only [amountAdd, amountSub, List.zipWith] at *
      simp [this]

theorem getD_amountAdd (a m : Amount) (h : a.length = m.length) (j : Nat) :
    (amountAdd a m).getD j 0 = a.getD j 0 + m.getD j 0 := by
  induction a generalizing m j with
  | nil =>
    cases m with
    | nil => simp [amountAdd]
    | cons y ys => simp at h
  | cons x xs ih =>
    cases m with
    | nil => simp at h
    | cons y ys =>
      simp only [List.length_cons, Nat.succ.injEq] at h
      cases j with
      | zero => simp [amountAdd]
      | succ j => simpa [amountAdd] using ih ys h j

theorem getD_amountSub (a m : Amount) (h : a.length = m.length) (j : Nat) :
    (amountSub a m).getD j 0 = a.getD j 0 - m.getD j 0 := by
  induction a generalizing m j with
  | nil =>
    cases m with
    | nil => simp [amountSub]
    | cons y ys => simp at h
  | cons x xs ih =>
    cases m with
    | nil => simp at h
    | cons y ys =>
      simp only [List.length_cons, Nat.succ.injEq] at h
      cases j with
      | zero => simp [amountSub]
      | succ j => simpa [amountSub] using ih ys h j

/-! ## Generic list helper lemmas -/

theorem getD_set_self {α : Type} (l : List α) (i : Nat) (x d : α)
    (h : i < l.length) : (l.set i x).getD i d = x := by
  induction l generalizing i with
  | nil => simp at h
  | cons y ys ih =>
    cases i with
    | zero => rfl
    | succ i =>
      simp only [List.length_cons, Nat.succ_lt_succ_iff] at h
      simpa using ih i h

theorem getD_set_ne {α : Type} (l : List α) (i j : Nat) (x d : α)
    (h : i ≠ j) : (l.set i x).getD j d = l.getD j d := by
  induction l generalizing i j with
  | nil => simp
  | cons y ys ih =>
    cases i with
    | zero =>
      cases j with
      | zero => exact absurd rfl h
      | succ j => simp
    | succ i =>
      cases j with
      | zero => simp
      | succ j =>
        have : i ≠ j := fun hc => h (by simp [hc])
        simpa using ih i j this

theorem set_getD_self {α : Type} (l : List α) (i : Nat) (d : α)
    (h : i < l.length) : l.set i (l.getD i d) = l := by
  induction l generalizing i with
  | nil => simp at h
  | cons y ys ih =>
    cases i with
    | zero => rfl
    | succ i =>
      simp only [List.length_cons, Nat.succ_lt_succ_iff] at h
      show y :: ys.set i (ys.getD i d) = y :: ys
      rw [ih i h]

theorem set_set_same {α : Type} (l : List α) (i : Nat) (x y : α) :
    (l.set i x).set i y = l.set i y := by
  induction l generalizing i with
  | nil => rfl
  | cons z zs ih =>
    cases i with
    | zero => rfl
    | succ i => simp [ih]

theorem set_comm_ne {α : Type} (l : List α) (i j : Nat) (x y : α)
    (h : i ≠ j) : (l.set i x).set j y = (l.set j y).set i x := by
  induction l generalizing i j with
  | nil => rfl
  | cons z zs ih =>
    cases i with
    | zero =>
      cases j with
      | zero => exact absurd rfl h
      | succ j => rfl
    | succ i =>
      cases j with
      | zero => rfl
      | succ j =>
        have : i ≠ j := fun hc => h (by simp [hc])
        simp [ih i j this]

theorem getD_append_len {α : Type} (l1 l2 : List α) (n : Nat) (d : α) :
    (l1 ++ l2).getD (l1.length + n) d = l2.getD n d := by
  induction l1 with
  | nil => simp
  | cons x xs ih => simpa [Nat.succ_add] using ih

theorem take_append_len {α : Type} (l1 l2 : List α) :
    (l1 ++ l2).take l1.length = l1 := by
  induction l1 with
  | nil => simp
  | cons x xs ih => simp [ih]

theorem drop_append_len {α : Type} (l1 l2 : List α) :
    (l1 ++ l2).drop l1.length = l2 := by
  induction l1 with
  | nil => simp
  | cons x xs ih => simp [ih]

theorem drop_eq_getD_cons {α : Type} (l : List α) (i : Nat) (d : α)
    (h : i < l.length) : l.drop i = l.getD i d :: l.drop (i + 1) := by
  induction l generalizing i with
  | nil => simp at h
  | cons x xs ih =>
    cases i with
    | zero => simp
    | succ i =>
      simp only [List.length_cons, Nat.succ_lt_succ_iff] at h
      simpa using ih i h

/-- Removing the two freshly inserted elements restores the original list
(`vector::insert` of a 2-element range followed by `vector::erase`). -/
theorem erase2_insert2 {α : Type} (T : List α) (tr : Nat) (a b : α)
    (h : tr ≤ T.length) :
    (T.take tr ++ [a, b] ++ T.drop tr).take tr ++
      (T.take tr ++ [a, b] ++ T.drop tr).drop (tr + 2) = T := by
  have hlen : (T.take tr).length = tr := by
    simp [List.length_take, Nat.min_eq_left h]
  have h1 : (T.take tr ++ [a, b] ++ T.drop tr).take tr = T.take tr := by
    have := take_append_len (T.take tr) ([a, b] ++ T.drop tr)
    rw [hlen] at this
    simpa [List.append_assoc] using this
  have hlen2 : (T.take tr ++ [a, b]).length = tr + 2 := by
    simp [hlen]
  have h2 : (T.take tr ++ [a, b] ++ T.drop tr).drop (tr + 2) = T.drop tr := by
    have := drop_append_len (T.take tr ++ [a, b]) (T.drop tr)
    rw [hlen2] at this
    exact this
  rw [h1, h2, List.take_append_drop]

/-- Re-inserting the two erased elements at the rank they were erased from
restores the original list. -/
theorem insert2_erase2 {α : Type} (S : List α) (sr : Nat) (d : α)
    (h : sr + 1 < S.length) :
    (S.take sr ++ S.drop (sr + 2)).take sr ++
      [S.getD sr d, S.getD (sr + 1) d] ++
        (S.take sr ++ S.drop (sr + 2)).drop sr = S := by
  have hle : sr ≤ S.length := le_of_lt (Nat.lt_of_succ_lt h)
  have hlen : (S.take sr).length = sr := by
    simp [List.length_take, Nat.min_eq_left hle]
  have h1 : (S.take sr ++ S.drop (sr + 2)).take sr = S.take sr := by
    have := take_append_len (S.take sr) (S.drop (sr + 2))
    rw [hlen] at this
    exact this
  have h2 : (S.take sr ++ S.drop (sr + 2)).drop sr = S.drop (sr + 2) := by
    have := drop_append_len (S.take sr) (S.drop (sr + 2))
    rw [hlen] at this
    exact this
  rw [h1, h2]
  have hsr : sr < S.length := Nat.lt_of_succ_lt h
  have e1 : S.drop sr = S.getD sr d :: S.drop (sr + 1) :=
    drop_eq_getD_cons S sr d hsr
  have e2 : S.drop (sr + 1) = S.getD (sr + 1) d :: S.drop (sr + 2) :=
    drop_eq_getD_cons S (sr + 1) d h
  calc S.take sr ++ [S.getD sr d, S.getD (sr + 1) d] ++ S.drop (sr + 2)
      = S.take sr ++ S.drop sr := by rw [e1, e2]; simp
    _ = S := List.take_append_drop sr S

/-! ## Local-search data model (2018-era sources of `or_opt.cpp`) -/

/-- A job as seen by the local-search operators: its location `index` into
the cost matrix and its `amount` vector. -/
structure LsJob where
  id : Nat
  index : Nat
  amount : Amount
deriving DecidableEq

/-- A vehicle as seen by the local-search operators. -/
structure LsVehicle where
  id : Nat
  capacity : Amount
deriving DecidableEq

/-- The slice of the `input` problem model used by `or_opt`:
`_jobs`, `_vehicles` and the compatibility test `vehicle_ok_with_job`
(skills and matrix reachability, computed at input construction). -/
structure LsInput where
  jobs : List LsJob
  vehicles : List LsVehicle
  vehicle_ok_with_job : Nat → Nat → Bool

/-- `_input._jobs[r]` (in-range in all uses below). -/
def LsInput.job (inp : LsInput) (r : Nat) : LsJob :=
  inp.jobs.getD r ⟨0, 0, []⟩

/-- `_input._vehicles[r]`. -/
def LsInput.vehicle (inp : LsInput) (r : Nat) : LsVehicle :=
  inp.vehicles.getD r ⟨0, []⟩

/-- `raw_solution`: one ordered list of job ranks per vehicle. -/
abbrev RawSolution := List (List Nat)

/-- The per-vehicle aggregated amounts `_amounts`. -/
abbrev AmountsVec := List Amount

/-- `or_opt::is_valid` from `src/problems/cvrp/local_search/or_opt.cpp`:
target vehicle must be compatible with both jobs of the moved edge, and
its cached amount plus the two job amounts must fit its capacity.
(`target_rank` is not read by the C++ member either.) -/
def or_opt_is_valid (inp : LsInput) (sol : RawSolution) (amounts : AmountsVec)
    (source_vehicle source_rank target_vehicle : Nat) : Bool :=
  let current_job_rank := (sol.getD source_vehicle []).getD source_rank 0
  let after_job_rank := (sol.getD source_vehicle []).getD (source_rank + 1) 0
  inp.vehicle_ok_with_job target_vehicle current_job_rank &&
    (inp.vehicle_ok_with_job target_vehicle after_job_rank &&
      amountLE
        (amountAdd
          (amountAdd (amounts.getD target_vehicle [])
            (inp.job current_job_rank).amount)
          (inp.job after_job_rank).amount)
        (inp.vehicle target_vehicle).capacity)

/-- `or_opt::apply`: move the edge `[source_rank, source_rank + 1]` of the
source route to `target_rank` in the target route and shift the amount
vectors accordingly (insertion into the target route happens before the
erasure from the source route, as in the C++). -/
def or_opt_apply (inp : LsInput) (sol : RawSolution) (amounts : AmountsVec)
    (source_vehicle source_rank target_vehicle target_rank : Nat) :
    RawSolution × AmountsVec :=
  let a := (sol.getD source_vehicle []).getD source_rank 0
  let b := (sol.getD source_vehicle []).getD (source_rank + 1) 0
  let mv_amount := amountAdd (inp.job a).amount (inp.job b).amount
  let amounts1 := amounts.set target_vehicle
    (amountAdd (amounts.getD target_vehicle []) mv_amount)
  let amounts2 := amounts1.set source_vehicle
    (amountSub (amounts1.getD source_vehicle []) mv_amount)
  let tgt := sol.getD target_vehicle []
  let sol1 := sol.set target_vehicle
    (tgt.take target_rank ++ [a, b] ++ tgt.drop target_rank)
  let src := sol1.getD source_vehicle []
  let sol2 := sol1.set source_vehicle
    (src.take source_rank ++ src.drop (source_rank + 2))
  (sol2, amounts2)

theorem amountLE_iff (a b : Amount) (d : Nat) (ha : a.length = d)
    (hb : b.length = d) :
    amountLE a b = true ↔ ∀ k, k < d → a.getD k 0 ≤ b.getD k 0 := by
  induction a generalizing b d with
  | nil =>
    cases b with
    | nil =>
      subst ha
      simp [amountLE]
    | cons y ys => rw [← ha] at hb; simp at hb
  | cons x xs ih =>
    cases b with
    | nil => rw [← ha] at hb; simp at hb
    | cons y ys =>
      cases d with
      | zero => simp at ha
      | succ d =>
        simp only [List.length_cons, Nat.succ.injEq] at ha hb
        constructor
        · intro h k hk
          simp only [amountLE, List.zip, List.zipWith, List.all_cons,
            Bool.and_eq_true, decide_eq_true_eq] at h
          cases k with
          | zero => exact h.1
          | succ k =>
            have := (ih ys d ha hb).mp (by simpa [amountLE] using h.2)
            exact this k (Nat.lt_of_succ_lt_succ hk)
        · intro h
          simp only [amountLE, List.zip, List.zipWith, List.all_cons,
            Bool.and_eq_true, decide_eq_true_eq]
          refine ⟨h 0 (Nat.succ_pos d), ?_⟩
          have := (ih ys d ha hb).mpr fun k hk =>
            h (k + 1) (Nat.succ_lt_succ hk)
          simpa [amountLE] using this

/-- C7: for distinct in-range source/target data, `or_opt::is_valid`
holds exactly when the target vehicle is compatible with both moved jobs
and the target's cached amount plus the two job amounts fits the target
capacity componentwise. The embedding is a total `Bool`-valued function:
it raises nothing and returns the solution unchanged. -/
theorem or_opt_is_valid_characterization
    (inp : LsInput) (sol : RawSolution) (amounts : AmountsVec)
    (sv sr tv tr d : Nat)
    (hne : sv ≠ tv)
    (hsv : sv < sol.length) (htv : tv < sol.length)
    (hsr : sr + 1 < (sol.getD sv []).length)
    (htr : tr ≤ (sol.getD tv []).length)
    (hcap : (inp.vehicle tv).capacity.length = d)
    (hsum :
      (amountAdd
        (amountAdd (amounts.getD tv [])
          (inp.job ((sol.getD sv []).getD sr 0)).amount)
        (inp.job ((sol.getD sv []).getD (sr + 1) 0)).amount).length = d) :
    or_opt_is_valid inp sol amounts sv sr tv = true ↔
      (inp.vehicle_ok_with_job tv ((sol.getD sv []).getD sr 0) = true ∧
       inp.vehicle_ok_with_job tv ((sol.getD sv []).getD (sr + 1) 0) = true ∧
       ∀ k, k < d →
         (amountAdd
           (amountAdd (amounts.getD tv [])
             (inp.job ((sol.getD sv []).getD sr 0)).amount)
           (inp.job ((sol.getD sv []).getD (sr + 1) 0)).amount).getD k 0 ≤
           (inp.vehicle tv).capacity.getD k 0) := by
  simp only [or_opt_is_valid, Bool.and_eq_true]
  rw [amountLE_iff _ _ d hsum hcap]

/-- C6: applying `or_opt::apply` and then the inverse or-opt move (the
same edge moved from the target route back to the source route at the
original rank) restores every route and every per-vehicle amount
vector. -/
theorem or_opt_apply_round_trip
    (inp : LsInput) (sol : RawSolution) (amounts : AmountsVec)
    (sv sr tv tr d : Nat)
    (hne : sv ≠ tv)
    (hsv : sv < sol.length) (htv : tv < sol.length)
    (hsr : sr + 1 < (sol.getD sv []).length)
    (htr : tr ≤ (sol.getD tv []).length)
    (hasv : sv < amounts.length) (hatv : tv < amounts.length)
    (hdsv : (amounts.getD sv []).length = d)
    (hdtv : (amounts.getD tv []).length = d)
    (hja : (inp.job ((sol.getD sv []).getD sr 0)).amount.length = d)
    (hjb : (inp.job ((sol.getD sv []).getD (sr + 1) 0)).amount.length = d) :
    or_opt_apply inp (or_opt_apply inp sol amounts sv sr tv tr).1
      (or_opt_apply inp sol amounts sv sr tv tr).2 tv tr sv sr =
      (sol, amounts) := by
  have hnet : tv ≠ sv := fun hc => hne hc.symm
  set S := sol.getD sv [] with hSdef
  set T := sol.getD tv [] with hTdef
  set a := S.getD sr 0 with hadef
  set b := S.getD (sr + 1) 0 with hbdef
  set mv := amountAdd (inp.job a).amount (inp.job b).amount with hmvdef
  set A := amounts.getD sv [] with hAdef
  set Bv := amounts.getD tv [] with hBvdef
  set T' := T.take tr ++ [a, b] ++ T.drop tr with hTPdef
  set S' := S.take sr ++ S.drop (sr + 2) with hSPdef
  have hmvlen : mv.length = d := by
    rw [hmvdef, length_amountAdd, hja, hjb]; simp
  have hfst : or_opt_apply inp sol amounts sv sr tv tr =
      ((sol.set tv T').set sv S',
        (amounts.set tv (amountAdd Bv mv)).set sv (amountSub A mv)) := by
    simp only [or_opt_apply]
    rw [getD_set_ne sol tv sv _ [] hnet, getD_set_ne amounts tv sv _ [] hnet]
  rw [hfst]
  have hlenTtr : (T.take tr).length = tr := by
    simp [List.length_take, Nat.min_eq_left htr]
  have hT'a : T'.getD tr 0 = a := by
    have h0 := getD_append_len (T.take tr) ([a, b] ++ T.drop tr) 0 0
    rw [hlenTtr, Nat.add_zero] at h0
    rw [hTPdef, List.append_assoc, h0]
    simp [List.getD]
  have hT'b : T'.getD (tr + 1) 0 = b := by
    have h0 := getD_append_len (T.take tr) ([a, b] ++ T.drop tr) 1 0
    rw [hlenTtr] at h0
    rw [hTPdef, List.append_assoc, h0]
    simp [List.getD]
  have hIns : S'.take sr ++ [a, b] ++ S'.drop sr = S := by
    rw [hSPdef, hadef, hbdef]
    exact insert2_erase2 S sr 0 hsr
  have hErs : T'.take tr ++ T'.drop (tr + 2) = T := by
    rw [hTPdef]
    exact erase2_insert2 T tr a b htr
  simp only [or_opt_apply, Prod.mk.injEq]
  constructor
  · rw [getD_set_ne (sol.set tv T') sv tv S' [] hne]
    rw [getD_set_self sol tv T' [] htv]
    rw [hT'a, hT'b]
    rw [getD_set_self (sol.set tv T') sv S' [] (by simpa using hsv)]
    rw [hIns]
    rw [set_set_same]
    rw [getD_set_ne (sol.set tv T') sv tv S [] hne]
    rw [getD_set_self sol tv T' [] htv]
    rw [hErs]
    rw [set_comm_ne (sol.set tv T') sv tv S T hne]
    rw [set_set_same]
    rw [hTdef, set_getD_self sol tv [] htv]
    rw [hSdef, set_getD_self sol sv [] hsv]
  · rw [getD_set_ne (sol.set tv T') sv tv S' [] hne]
    rw [getD_set_self sol tv T' [] htv]
    rw [hT'a, hT'b]
    rw [← hmvdef]
    rw [getD_set_self (amounts.set tv (amountAdd Bv mv)) sv
      (amountSub A mv) [] (by simpa using hasv)]
    rw [amountSub_add_cancel A mv (by rw [hdsv, hmvlen])]
    rw [set_set_same]
    rw [getD_set_ne (amounts.set tv (amountAdd Bv mv)) sv tv A [] hne]
    rw [getD_set_self amounts tv (amountAdd Bv mv) [] hatv]
    rw [amountAdd_sub_cancel Bv mv (by rw [hdtv, hmvlen])]
    rw [set_comm_ne (amounts.set tv (amountAdd Bv mv)) sv tv A Bv hne]
    rw [set_set_same]
    rw [hBvdef, set_getD_self amounts tv [] hatv]
    rw [hAdef, set_getD_self amounts sv [] hasv]

theorem ofList_append {α : Type} (l1 l2 : List α) :
    Multiset.ofList (l1 ++ l2) = Multiset.ofList l1 + Multiset.ofList l2 :=
  rfl

/-- Multiset of job ranks over all routes of a raw solution. -/
def solJobs (sol : RawSolution) : Multiset Nat :=
  (List.map (fun r => Multiset.ofList r) sol).sum

theorem solJobs_set (sol : RawSolution) (i : Nat) (x : List Nat)
    (h : i < sol.length) :
    solJobs (sol.set i x) + Multiset.ofList (sol.getD i []) =
      solJobs sol + Multiset.ofList x := by
  induction sol generalizing i with
  | nil => simp at h
  | cons r rs ih =>
    cases i with
    | zero =>
      show solJobs (x :: rs) + Multiset.ofList r =
        solJobs (r :: rs) + Multiset.ofList x
      simp only [solJobs, List.map_cons, List.sum_cons]
      abel
    | succ i =>
      simp only [List.length_cons, Nat.succ_lt_succ_iff] at h
      have hrec := ih i h
      show solJobs (r :: rs.set i x) + Multiset.ofList (rs.getD i []) =
        solJobs (r :: rs) + Multiset.ofList x
      simp only [solJobs, List.map_cons, List.sum_cons] at hrec ⊢
      rw [add_assoc, hrec, ← add_assoc]

/-- Componentwise total of the per-vehicle amount vectors, at coordinate
`j`. -/
def amountsTotalAt (amounts : AmountsVec) (j : Nat) : Int :=
  (amounts.map fun aVec => aVec.getD j 0).sum

theorem amountsTotalAt_set (amounts : AmountsVec) (i : Nat) (x : Amount)
    (j : Nat) (h : i < amounts.length) :
    amountsTotalAt (amounts.set i x) j =
      amountsTotalAt amounts j - (amounts.getD i []).getD j 0 + x.getD j 0 := by
  induction amounts generalizing i with
  | nil => simp at h
  | cons r rs ih =>
    cases i with
    | zero =>
      simp only [List.set, amountsTotalAt, List.map_cons, List.sum_cons,
        List.getD, List.get?, Option.getD_some]
      ring
    | succ i =>
      simp only [List.length_cons, Nat.succ_lt_succ_iff] at h
      have hrec := ih i h
      simp only [amountsTotalAt, List.set, List.map_cons, List.sum_cons]
        at hrec ⊢
      have hget : (r :: rs).getD (i + 1) [] = rs.getD i [] := rfl
      rw [hget, hrec]
      ring

/-- C10: `or_opt::apply` moves exactly the two-job edge, in order, into
the target route; the multiset of job ranks over all routes, the
componentwise total of the amount vectors, and every other vehicle's
route and amounts are preserved. -/
theorem or_opt_apply_preserves
    (inp : LsInput) (sol : RawSolution) (amounts : AmountsVec)
    (sv sr tv tr d : Nat)
    (hne : sv ≠ tv)
    (hsv : sv < sol.length) (htv : tv < sol.length)
    (hsr : sr + 1 < (sol.getD sv []).length)
    (htr : tr ≤ (sol.getD tv []).length)
    (hasv : sv < amounts.length) (hatv : tv < amounts.length)
    (hdsv : (amounts.getD sv []).length = d)
    (hdtv : (amounts.getD tv []).length = d)
    (hja : (inp.job ((sol.getD sv []).getD sr 0)).amount.length = d)
    (hjb : (inp.job ((sol.getD sv []).getD (sr + 1) 0)).amount.length = d) :
    solJobs (or_opt_apply inp sol amounts sv sr tv tr).1 = solJobs sol ∧
    (or_opt_apply inp sol amounts sv sr tv tr).1.getD tv [] =
      (sol.getD tv []).take tr ++
        [(sol.getD sv []).getD sr 0, (sol.getD sv []).getD (sr + 1) 0] ++
        (sol.getD tv []).drop tr ∧
    (or_opt_apply inp sol amounts sv sr tv tr).1.getD sv [] =
      (sol.getD sv []).take sr ++ (sol.getD sv []).drop (sr + 2) ∧
    (∀ w, w ≠ sv → w ≠ tv →
      (or_opt_apply inp sol amounts sv sr tv tr).1.getD w [] =
        sol.getD w [] ∧
      (or_opt_apply inp sol amounts sv sr tv tr).2.getD w [] =
        amounts.getD w []) ∧
    (∀ j, amountsTotalAt (or_opt_apply inp sol amounts sv sr tv tr).2 j =
      amountsTotalAt amounts j) := by
  have hnet : tv ≠ sv := fun hc => hne hc.symm
  set S := sol.getD sv [] with hSdef
  set T := sol.getD tv [] with hTdef
  set a := S.getD sr 0 with hadef
  set b := S.getD (sr + 1) 0 with hbdef
  set mv := amountAdd (inp.job a).amount (inp.job b).amount with hmvdef
  set A := amounts.getD sv [] with hAdef
  set Bv := amounts.getD tv [] with hBvdef
  set T' := T.take tr ++ [a, b] ++ T.drop tr with hTPdef
  set S' := S.take sr ++ S.drop (sr + 2) with hSPdef
  have hmvlen : mv.length = d := by
    rw [hmvdef, length_amountAdd, hja, hjb]; simp
  have hfst : or_opt_apply inp sol amounts sv sr tv tr =
      ((sol.set tv T').set sv S',
        (amounts.set tv (amountAdd Bv mv)).set sv (amountSub A mv)) := by
    simp only [or_opt_apply]
    rw [getD_set_ne sol tv sv _ [] hnet, getD_set_ne amounts tv sv _ [] hnet]
  rw [hfst]
  have hSsplit : S = S.take sr ++ [a, b] ++ S.drop (sr + 2) := by
    rw [hadef, hbdef]
    conv_lhs => rw [← List.take_append_drop sr S]
    rw [drop_eq_getD_cons S sr 0 (Nat.lt_of_succ_lt hsr),
      drop_eq_getD_cons S (sr + 1) 0 hsr]
    simp
  refine ⟨?_, ?_, ?_, ?_, ?_⟩
  · have e1 := solJobs_set (sol.set tv T') sv S' (by simpa using hsv)
    rw [getD_set_ne sol tv sv T' [] hnet, ← hSdef] at e1
    have e2 := solJobs_set sol tv T' htv
    rw [← hTdef] at e2
    have hmul : Multiset.ofList T' + Multiset.ofList S' =
        Multiset.ofList S + Multiset.ofList T := by
      rw [hTPdef, hSPdef]
      conv_rhs => rw [hSsplit]
      have hT2 : Multiset.ofList T =
          Multiset.ofList (T.take tr) + Multiset.ofList (T.drop tr) := by
        conv_lhs => rw [← List.take_append_drop tr T]
        exact ofList_append _ _
      rw [hT2]
      simp only [ofList_append]
      abel
    have hcan : solJobs ((sol.set tv T').set sv S') +
        (Multiset.ofList S + Multiset.ofList T) =
        solJobs sol + (Multiset.ofList S + Multiset.ofList T) := by
      calc solJobs ((sol.set tv T').set sv S') +
            (Multiset.ofList S + Multiset.ofList T)
          = (solJobs ((sol.set tv T').set sv S') + Multiset.ofList S) +
              Multiset.ofList T := by abel
        _ = (solJobs (sol.set tv T') + Multiset.ofList S') +
              Multiset.ofList T := by rw [e1]
        _ = (solJobs (sol.set tv T') + Multiset.ofList T) +
              Multiset.ofList S' := by abel
        _ = (solJobs sol + Multiset.ofList T') + Multiset.ofList S' := by
              rw [e2]
        _ = solJobs sol + (Multiset.ofList T' + Multiset.ofList S') := by
              abel
        _ = solJobs sol + (Multiset.ofList S + Multiset.ofList T) := by
              rw [hmul]
    exact add_right_cancel hcan
  · rw [getD_set_ne (sol.set tv T') sv tv S' [] hne,
      getD_set_self sol tv T' [] htv]
  · rw [getD_set_self (sol.set tv T') sv S' [] (by simpa using hsv)]
  · intro w hws hwt
    constructor
    · rw [getD_set_ne (sol.set tv T') sv w S' [] (fun hc => hws hc.symm),
        getD_set_ne sol tv w T' [] (fun hc => hwt hc.symm)]
    · rw [getD_set_ne (amounts.set tv (amountAdd Bv mv)) sv w
        (amountSub A mv) [] (fun hc => hws hc.symm),
        getD_set_ne amounts tv w (amountAdd Bv mv) [] (fun hc => hwt hc.symm)]
  · intro j
    rw [amountsTotalAt_set (amounts.set tv (amountAdd Bv mv)) sv
      (amountSub A mv) j (by simpa using hasv)]
    rw [getD_set_ne amounts tv sv (amountAdd Bv mv) [] hnet, ← hAdef]
    rw [amountsTotalAt_set amounts tv (amountAdd Bv mv) j hatv, ← hBvdef]
    rw [getD_amountAdd Bv mv (by rw [hdtv, hmvlen]) j]
    rw [getD_amountSub A mv (by rw [hdsv, hmvlen]) j]
    ring

/-! ### Concrete data for the or-opt witnesses -/

/-- Four jobs, two vehicles, all compatibility checks passing. -/
def lsInputW : LsInput :=
  { jobs := [⟨1, 1, [1]⟩, ⟨2, 2, [1]⟩, ⟨3, 3, [2]⟩, ⟨4, 4, [1]⟩]
  , vehicles := [⟨1, [10]⟩, ⟨2, [10]⟩]
  , vehicle_ok_with_job := fun _ _ => true }

def solW : RawSolution := [[0, 1, 2], [3]]

def amountsW : AmountsVec := [[4], [1]]

theorem or_opt_apply_round_trip_witness :
    ((0 : Nat) ≠ 1 ∧ 0 < solW.length ∧ 1 < solW.length ∧
      0 + 1 < (solW.getD 0 []).length ∧ 1 ≤ (solW.getD 1 []).length ∧
      0 < amountsW.length ∧ 1 < amountsW.length) ∧
    or_opt_apply lsInputW (or_opt_apply lsInputW solW amountsW 0 0 1 1).1
      (or_opt_apply lsInputW solW amountsW 0 0 1 1).2 1 1 0 0 =
      (solW, amountsW) :=
  ⟨by decide,
    or_opt_apply_round_trip lsInputW solW amountsW 0 0 1 1 1 (by decide)
      (by decide) (by decide) (by decide) (by decide) (by decide) (by decide)
      (by decide) (by decide) (by decide) (by decide)⟩

theorem or_opt_is_valid_characterization_witness :
    ((0 : Nat) ≠ 1 ∧ 0 + 1 < (solW.getD 0 []).length ∧
      1 ≤ (solW.getD 1 []).length) ∧
    (or_opt_is_valid lsInputW solW amountsW 0 0 1 = true ↔
      (lsInputW.vehicle_ok_with_job 1 ((solW.getD 0 []).getD 0 0) = true ∧
       lsInputW.vehicle_ok_with_job 1 ((solW.getD 0 []).getD (0 + 1) 0) =
         true ∧
       ∀ k, k < 1 →
         (amountAdd
           (amountAdd (amountsW.getD 1 [])
             (lsInputW.job ((solW.getD 0 []).getD 0 0)).amount)
           (lsInputW.job ((solW.getD 0 []).getD (0 + 1) 0)).amount).getD
             k 0 ≤
           (lsInputW.vehicle 1).capacity.getD k 0)) :=
  ⟨by decide,
    or_opt_is_valid_characterization lsInputW solW amountsW 0 0 1 1 1
      (by decide) (by decide) (by decide) (by decide) (by decide) (by decide)
      (by decide)⟩

theorem or_opt_apply_preserves_witness :
    ((0 : Nat) ≠ 1 ∧ 0 + 1 < (solW.getD 0 []).length ∧
      1 ≤ (solW.getD 1 []).length) ∧
    (solJobs (or_opt_apply lsInputW solW amountsW 0 0 1 1).1 = solJobs solW ∧
     (or_opt_apply lsInputW solW amountsW 0 0 1 1).1.getD 1 [] =
       (solW.getD 1 []).take 1 ++
         [(solW.getD 0 []).getD 0 0, (solW.getD 0 []).getD (0 + 1) 0] ++
         (solW.getD 1 []).drop 1 ∧
     (or_opt_apply lsInputW solW amountsW 0 0 1 1).1.getD 0 [] =
       (solW.getD 0 []).take 0 ++ (solW.getD 0 []).drop (0 + 2) ∧
     (∀ w, w ≠ 0 → w ≠ 1 →
       (or_opt_apply lsInputW solW amountsW 0 0 1 1).1.getD w [] =
         solW.getD w [] ∧
       (or_opt_apply lsInputW solW amountsW 0 0 1 1).2.getD w [] =
         amountsW.getD w []) ∧
     (∀ j, amountsTotalAt (or_opt_apply lsInputW solW amountsW 0 0 1 1).2 j =
       amountsTotalAt amountsW j)) :=
  ⟨by decide,
    or_opt_apply_preserves lsInputW solW amountsW 0 0 1 1 1 (by decide)
      (by decide) (by decide) (by decide) (by decide) (by decide) (by decide)
      (by decide) (by decide) (by decide) (by decide)⟩

/-! ## JSON input parser (2017-era single-vehicle parser) -/

/-- A rapidjson value, restricted to the shapes the parser inspects:
`num` carries the unsigned integer read by `GetUint` (coordinate doubles
are irrelevant to every claim and are read through `getUint` as well);
any other scalar is `other`. -/
inductive JVal where
  | num (n : Nat)
  | arr (elems : List JVal)
  | obj (fields : List (String × JVal))
  | other

/-- rapidjson `HasMember`. -/
def JVal.hasMember : JVal → String → Bool
  | .obj fs, k => fs.any fun p => p.1 == k
  | _, _ => false

/-- rapidjson `operator[](const char*)` (only reached after a
`HasMember` check in the source). -/
def JVal.member : JVal → String → JVal
  | .obj fs, k => ((fs.find? fun p => p.1 == k).map Prod.snd).getD .other
  | _, _ => .other

def JVal.isArray : JVal → Bool
  | .arr _ => true
  | _ => false

def JVal.isObject : JVal → Bool
  | .obj _ => true
  | _ => false

def JVal.isNumber : JVal → Bool
  | .num _ => true
  | _ => false

/-- rapidjson `Size()`. -/
def JVal.size : JVal → Nat
  | .arr l => l.length
  | _ => 0

/-- rapidjson `operator[](SizeType)`. -/
def JVal.elem : JVal → Nat → JVal
  | .arr l, i => l.getD i .other
  | _, _ => .other

/-- rapidjson `GetUint`. -/
def JVal.getUint : JVal → Nat
  | .num n => n
  | _ => 0

/-- rapidjson `Empty()` on the vehicles array. -/
def JVal.isEmptyArr : JVal → Bool
  | .arr l => l.isEmpty
  | _ => true

/-- `parse_coordinates`: optional coordinate pair for a given key. -/
def parse_coordinates (object : JVal) (key : String) :
    Except String (Option (Nat × Nat)) :=
  if object.hasMember key && (object.member key).isArray then
    if (object.member key).size < 2 then
      Except.error "Invalid coordinates array size."
    else
      Except.ok (some (((object.member key).elem 0).getUint,
        ((object.member key).elem 1).getUint))
  else
    Except.ok none

/-- A vehicle as built by `input::add_vehicle`. -/
structure PVehicle where
  id : Nat
  startCoords : Option (Nat × Nat)
  endCoords : Option (Nat × Nat)
  start_index : Option Nat
  end_index : Option Nat
deriving DecidableEq

/-- A job as built by `input::add_job`. -/
structure PJob where
  id : Nat
  location : Option (Nat × Nat)
  location_index : Option Nat
deriving DecidableEq

/-- Modelled from the spec: the `input` DTO assembled by the parser (the
`input` class itself is not among the provided sources).  It records the
vehicle, the jobs, the extracted sub-matrix and the number of registered
locations (`get_location_number`): one per job, plus one per present
vehicle start/end location. -/
structure ParsedInput where
  vehicles : List PVehicle
  jobs : List PJob
  matrix : Option (List (List Nat))
  location_number : Nat
deriving DecidableEq

/-- Entries of one matrix row: first non-number entry raises. -/
def parseMatrixEntries : List JVal → Except String (List Nat)
  | [] => Except.ok []
  | e :: rest =>
    if e.isNumber then
      (parseMatrixEntries rest).map fun r => e.getUint :: r
    else Except.error "Input matrix has a non-number entry."

/-- The custom-matrix loading loop: each row is checked square, then its
entries are read. -/
def parseMatrixRows (msize : Nat) : List JVal → Except String (List (List Nat))
  | [] => Except.ok []
  | row :: rest =>
    if row.size ≠ msize then Except.error "Input matrix is not square."
    else do
      let entries ← parseMatrixEntries
        (match row with | .arr es => es | _ => [])
      let others ← parseMatrixRows msize rest
      Except.ok (entries :: others)

/-- Modelled from the spec: `matrix::get_sub_matrix` returns the
principal sub-matrix in the given row/column order (the matrix class is
not among the provided sources). -/
def get_sub_matrix (m : List (List Nat)) (idx : List Nat) :
    List (List Nat) :=
  idx.map fun i => idx.map fun j => (m.getD i []).getD j 0

/-- The jobs loop of the custom-matrix branch: per-job checks, location
indices collected into `necessary_indices`, and `index_counter`
renumbering. -/
def parseJobsMatrix (msize : Nat) (counter : Nat) :
    List JVal → Except String (List PJob × List Nat)
  | [] => Except.ok ([], [])
  | j :: rest =>
    if !j.isObject then Except.error "Ill-formed job object."
    else if !j.hasMember "id" then Except.error "Missing mandatory job id."
    else if !(j.member "id").isNumber then
      Except.error "Job id is not a number."
    else if !j.hasMember "location_index" then
      Except.error "Missing mandatory job location_index."
    else if !(j.member "location_index").isNumber then
      Except.error "Job location_index is not a number."
    else if msize ≤ (j.member "location_index").getUint then
      Except.error "Job location_index does not match to matrix size."
    else do
      let loc ← parse_coordinates j "location"
      let (jobs, idxs) ← parseJobsMatrix msize (counter + 1) rest
      Except.ok (⟨(j.member "id").getUint, loc, some counter⟩ :: jobs,
        (j.member "location_index").getUint :: idxs)

/-- The jobs loop of the OSRM branch. -/
def parseJobsNoMatrix : List JVal → Except String (List PJob)
  | [] => Except.ok []
  | j :: rest =>
    if !j.isObject then Except.error "Ill-formed job object."
    else if !j.hasMember "location" then
      Except.error "Missing mandatory job location."
    else if !j.hasMember "id" then Except.error "Missing mandatory job id."
    else do
      let loc ← parse_coordinates j "location"
      let jobs ← parseJobsNoMatrix rest
      Except.ok (PJob.mk (j.member "id").getUint loc none :: jobs)

/-- The custom-matrix branch of `parse`. -/
def parseMatrixBranch (json_input : JVal) : Except String ParsedInput := do
  let v0 := (json_input.member "vehicles").elem 0
  let mj := json_input.member "matrix"
  let msize := mj.size
  let mrows ← parseMatrixRows msize
    (match mj with | .arr rows => rows | _ => [])
  let origStart ←
    if v0.hasMember "start_index" then
      if !(v0.member "start_index").isNumber then
        Except.error "Vehicle start_index is not a number."
      else if msize ≤ (v0.member "start_index").getUint then
        Except.error "Vehicle start_index does not match to matrix size."
      else Except.ok (some ((v0.member "start_index").getUint))
    else Except.ok (none : Option Nat)
  let origEnd ←
    if v0.hasMember "end_index" then
      if !(v0.member "end_index").isNumber then
        Except.error "Vehicle end_index is not a number."
      else if msize ≤ (v0.member "end_index").getUint then
        Except.error "Vehicle end_index does not match to matrix size."
      else Except.ok (some ((v0.member "end_index").getUint))
    else Except.ok (none : Option Nat)
  let idx0 : List Nat := match origStart with | some s => [s] | none => []
  let idx1 : List Nat :=
    idx0 ++ (match origEnd with | some e => [e] | none => [])
  let start_index : Option Nat := origStart.map fun _ => 0
  let end_index : Option Nat := origEnd.map fun _ => idx0.length
  let startCoords ← parse_coordinates v0 "start"
  let endCoords ← parse_coordinates v0 "end"
  let vehicle : PVehicle :=
    ⟨(v0.member "id").getUint, startCoords, endCoords, start_index, end_index⟩
  let jres ← parseJobsMatrix msize idx1.length
    (match json_input.member "jobs" with | .arr js => js | _ => [])
  let necessary := idx1 ++ jres.2
  if necessary.length ≤ 1 then
    Except.error "At least two locations required!"
  else
    Except.ok ⟨[vehicle], jres.1, some (get_sub_matrix mrows necessary),
      necessary.length⟩

/-- The OSRM branch of `parse`. -/
def parseNoMatrixBranch (json_input : JVal) : Except String ParsedInput := do
  let v0 := (json_input.member "vehicles").elem 0
  let startCoords ← parse_coordinates v0 "start"
  let endCoords ← parse_coordinates v0 "end"
  let vehicle : PVehicle :=
    ⟨(v0.member "id").getUint, startCoords, endCoords, none, none⟩
  let jobs ← parseJobsNoMatrix
    (match json_input.member "jobs" with | .arr js => js | _ => [])
  let location_number :=
    (match startCoords with | some _ => 1 | none => 0) +
      (match endCoords with | some _ => 1 | none => 0) + jobs.length
  if location_number ≤ 1 then
    Except.error "At least two locations required!"
  else
    Except.ok ⟨[vehicle], jobs, none, location_number⟩

/-- `parse(cl_args)`: the routing-wrapper selection and the raw JSON
text parsing that precede these checks concern no claim and are elided;
`json_input` is the parsed document. -/
def parse (json_input : JVal) : Except String ParsedInput :=
  if !json_input.hasMember "jobs" || !(json_input.member "jobs").isArray then
    Except.error "Incorrect jobs input."
  else if !json_input.hasMember "vehicles" ||
      !(json_input.member "vehicles").isArray ||
      (json_input.member "vehicles").isEmptyArr then
    Except.error "Incorrect vehicles input."
  else if !((json_input.member "vehicles").elem 0).isObject then
    Except.error "Ill-formed vehicle object."
  else if !((json_input.member "vehicles").elem 0).hasMember "id" then
    Except.error "Missing mandatory vehicle id."
  else if 1 < (json_input.member "vehicles").size then
    Except.error "Multiple vehicles are not supported (yet)."
  else if json_input.hasMember "matrix" then
    parseMatrixBranch json_input
  else
    parseNoMatrixBranch json_input

theorem except_bind_ok {ε α β : Type} (a : α) (f : α → Except ε β) :
    (Except.ok a >>= f : Except ε β) = f a := rfl

theorem parseMatrixEntries_num (row : List Nat) :
    parseMatrixEntries (row.map JVal.num) = Except.ok row := by
  induction row with
  | nil => rfl
  | cons x xs ih =>
    simp [parseMatrixEntries, JVal.isNumber, JVal.getUint, ih, Except.map]

theorem parseMatrixRows_num (msize : Nat) (grid : List (List Nat))
    (hsq : ∀ row ∈ grid, row.length = msize) :
    parseMatrixRows msize (grid.map fun row => JVal.arr (row.map JVal.num)) =
      Except.ok grid := by
  induction grid with
  | nil => rfl
  | cons r rs ih =>
    have hr : (JVal.arr (r.map JVal.num)).size = msize := by
      simp [JVal.size, hsq r (by simp)]
    have hrec := ih fun row hm => hsq row (by simp [hm])
    simp [parseMatrixRows, hr, parseMatrixEntries_num, hrec]
    rfl

theorem parseJobsMatrix_ok (msize : Nat) (jobsData : List (Nat × Nat))
    (hj : ∀ p ∈ jobsData, p.2 < msize) :
    ∀ counter, ∃ jobs,
      parseJobsMatrix msize counter (jobsData.map fun p =>
        JVal.obj [("id", JVal.num p.1), ("location_index", JVal.num p.2)]) =
      Except.ok (jobs, jobsData.map Prod.snd) := by
  induction jobsData with
  | nil => exact fun counter => ⟨[], rfl⟩
  | cons p ps ih =>
    intro counter
    obtain ⟨jobs, hjobs⟩ := ih (fun q hq => hj q (by simp [hq])) (counter + 1)
    refine ⟨⟨p.1, none, some counter⟩ :: jobs, ?_⟩
    have hlt : ¬ msize ≤ p.2 := Nat.not_le.mpr (hj p (by simp))
    simp [parseJobsMatrix, JVal.isObject, JVal.hasMember, JVal.member,
      JVal.isNumber, JVal.getUint, hlt, parse_coordinates, hjobs]
    rfl

/-- Document with a custom matrix whose single vehicle carries only an
`id`: no `start_index`, no `end_index`. -/
def mkMatrixDoc (vid : Nat) (grid : List (List Nat))
    (jobsData : List (Nat × Nat)) : JVal :=
  .obj [("vehicles", .arr [.obj [("id", .num vid)]]),
        ("jobs", .arr (jobsData.map fun p =>
          JVal.obj [("id", JVal.num p.1), ("location_index", JVal.num p.2)])),
        ("matrix", .arr (grid.map fun row => JVal.arr (row.map JVal.num)))]

/-- C8 counterexample input: `matrix` supplied, vehicle has neither
`start_index` nor `end_index`. -/
def c8Doc : JVal := mkMatrixDoc 7 [[0, 3], [3, 0]] [(1, 0), (2, 1)]

/-- C8 counterexample: the claim says parsing must fail with an input
error when `matrix` is supplied and the vehicle omits
`start_index`/`end_index`; the parser accepts this input. -/
theorem parse_missing_indices_accepted :
    c8Doc.hasMember "matrix" = true ∧
    ((c8Doc.member "vehicles").elem 0).hasMember "start_index" = false ∧
    ((c8Doc.member "vehicles").elem 0).hasMember "end_index" = false ∧
    (parse c8Doc).isOk = true := by
  refine ⟨rfl, rfl, rfl, rfl⟩

/-- Vehicle `start_index` present but not a number. -/
def c8DocBadStart : JVal :=
  .obj [("vehicles", .arr [.obj [("id", .num 7),
          ("start_index", .other)]]),
        ("jobs", .arr [.obj [("id", .num 1), ("location_index", .num 0)]]),
        ("matrix", .arr [.arr [.num 0, .num 3], .arr [.num 3, .num 0]])]

/-- Vehicle `start_index` present but not smaller than the matrix
dimension. -/
def c8DocRange : JVal :=
  .obj [("vehicles", .arr [.obj [("id", .num 7),
          ("start_index", .num 5)]]),
        ("jobs", .arr [.obj [("id", .num 1), ("location_index", .num 0)]]),
        ("matrix", .arr [.arr [.num 0, .num 3], .arr [.num 3, .num 0]])]

/-- C8 amended: with a custom `matrix`, a vehicle's `start_index` and
`end_index` are optional — parsing succeeds when both are omitted — and
when present they must be numeric and within the matrix dimension,
otherwise an input error is raised. -/
theorem parse_matrix_indices_policy
    (vid : Nat) (grid : List (List Nat)) (jobsData : List (Nat × Nat))
    (hsq : ∀ row ∈ grid, row.length = grid.length)
    (hj : ∀ p ∈ jobsData, p.2 < grid.length)
    (hn : 2 ≤ jobsData.length) :
    (∃ jobs,
      parse (mkMatrixDoc vid grid jobsData) =
        Except.ok ⟨[⟨vid, none, none, none, none⟩], jobs,
          some (get_sub_matrix grid (jobsData.map Prod.snd)),
          jobsData.length⟩) ∧
    parse c8DocBadStart =
      Except.error "Vehicle start_index is not a number." ∧
    parse c8DocRange =
      Except.error "Vehicle start_index does not match to matrix size." := by
  refine ⟨?_, rfl, rfl⟩
  obtain ⟨jobs, hjobs⟩ := parseJobsMatrix_ok grid.length jobsData hj 0
  refine ⟨jobs, ?_⟩
  have hrows := parseMatrixRows_num grid.length grid hsq
  have hbranch : parse (mkMatrixDoc vid grid jobsData) =
      parseMatrixBranch (mkMatrixDoc vid grid jobsData) := rfl
  rw [hbranch]
  have hmem : (mkMatrixDoc vid grid jobsData).member "matrix" =
      JVal.arr (grid.map fun row => JVal.arr (row.map JVal.num)) := rfl
  have hjmem : (mkMatrixDoc vid grid jobsData).member "jobs" =
      JVal.arr (jobsData.map fun p =>
        JVal.obj [("id", JVal.num p.1), ("location_index", JVal.num p.2)]) :=
    rfl
  have hv0 : ((mkMatrixDoc vid grid jobsData).member "vehicles").elem 0 =
      JVal.obj [("id", JVal.num vid)] := rfl
  have hn2 : ¬ (jobsData.map Prod.snd).length ≤ 1 := by
    simpa using hn
  simp only [parseMatrixBranch, hmem, hjmem, hv0, JVal.size,
    List.length_map, hrows, hjobs]
  simp [except_bind_ok, JVal.hasMember, parse_coordinates, JVal.member,
    JVal.getUint, hjobs, hn2]
  omega

/-- C9: the parser rejects every document whose `vehicles` array holds
more than one entry: no parse can succeed on it, and once the preceding
well-formedness checks pass the error message is exactly the dedicated
one.  Consequently only single-vehicle problems reach the solver. -/
theorem parse_rejects_multiple_vehicles :
    (∀ json_input r, parse json_input = Except.ok r →
      (json_input.member "vehicles").size ≤ 1) ∧
    (∀ json_input,
      json_input.hasMember "jobs" = true →
      (json_input.member "jobs").isArray = true →
      json_input.hasMember "vehicles" = true →
      (json_input.member "vehicles").isArray = true →
      (json_input.member "vehicles").isEmptyArr = false →
      ((json_input.member "vehicles").elem 0).isObject = true →
      ((json_input.member "vehicles").elem 0).hasMember "id" = true →
      1 < (json_input.member "vehicles").size →
      parse json_input =
        Except.error "Multiple vehicles are not supported (yet).") := by
  constructor
  · intro json_input r h
    by_contra hgt
    rw [Nat.not_le] at hgt
    simp only [parse] at h
    repeat' split at h
    all_goals first
      | exact Except.noConfusion h
      | exact absurd hgt (by assumption)
  · intro json_input h1 h2 h3 h4 h5 h6 h7 h8
    simp only [parse, h1, h2, h3, h4, h5, h6, h7, h8, Bool.not_true,
      Bool.or_self, Bool.or_false, Bool.false_or, if_false, if_true]
    simp [h8]

/-- Two vehicles in the array. -/
def c9Doc : JVal :=
  .obj [("vehicles", .arr [.obj [("id", .num 7)], .obj [("id", .num 8)]]),
        ("jobs", .arr [])]

theorem parse_rejects_multiple_vehicles_witness :
    1 < (c9Doc.member "vehicles").size ∧
    parse c9Doc = Except.error "Multiple vehicles are not supported (yet)." :=
  ⟨by decide,
    parse_rejects_multiple_vehicles.2 c9Doc rfl rfl rfl rfl rfl rfl rfl
      (by decide)⟩

theorem parse_matrix_indices_policy_witness :
    (∀ row ∈ [[0, 2], [2, 0]], List.length row = 2) ∧
    (∃ jobs,
      parse (mkMatrixDoc 3 [[0, 2], [2, 0]] [(1, 0), (2, 1)]) =
        Except.ok ⟨[⟨3, none, none, none, none⟩], jobs,
          some (get_sub_matrix [[0, 2], [2, 0]]
            ([(1, 0), (2, 1)].map Prod.snd)), 2⟩) :=
  ⟨by decide,
    (parse_matrix_indices_policy 3 [[0, 2], [2, 0]] [(1, 0), (2, 1)]
      (by decide) (by decide) (by decide)).1⟩

/-! ## Route validator / ETA chooser (`choose_invalid_route`,
`algorithms/validation/choose_invalid.cpp`) -/

/-- `std::numeric_limits<Duration>::max()`, the sentinel for an unset
horizon start. -/
def durMax : Nat := 4294967295

structure TimeWindow where
  start : Nat
  stop : Nat
deriving DecidableEq

/-- Modelled from the spec: default time windows are `[0, +infinity)`
(`TimeWindow::is_default`; the time-window class is not among the
provided sources). -/
def TimeWindow.is_default (tw : TimeWindow) : Bool :=
  tw.start == 0 && tw.stop == durMax

def DEFAULT_TW : TimeWindow := ⟨0, durMax⟩

inductive JOB_TYPE | SINGLE | PICKUP | DELIVERY
deriving DecidableEq

structure VJob where
  id : Nat
  type : JOB_TYPE
  index : Nat
  service : Nat
  priority : Nat
  pickup : Amount
  delivery : Amount
  tws : List TimeWindow
deriving DecidableEq

structure VBreak where
  id : Nat
  tws : List TimeWindow
  service : Nat
deriving DecidableEq

structure VVehicle where
  id : Nat
  start : Option Nat
  stop : Option Nat
  capacity : Amount
  tw : TimeWindow
  breaks : List VBreak
  description : String
deriving DecidableEq

def VVehicle.has_start (v : VVehicle) : Bool := v.start.isSome

def VVehicle.has_end (v : VVehicle) : Bool := v.stop.isSome

def VVehicle.brk (v : VVehicle) (r : Nat) : VBreak :=
  v.breaks.getD r ⟨0, [], 0⟩

/-- The slice of `Input` used by the validator. -/
structure VInput where
  jobs : List VJob
  vehicles : List VVehicle
  matrix : Nat → Nat → Nat
  amount_size : Nat
  vehicle_ok_with_job : Nat → Nat → Bool

def VInput.zero_amount (inp : VInput) : Amount :=
  List.replicate inp.amount_size 0

def VInput.job (inp : VInput) (r : Nat) : VJob :=
  inp.jobs.getD r ⟨0, .SINGLE, 0, 0, 0, [], [], []⟩

def VInput.vehicle (inp : VInput) (r : Nat) : VVehicle :=
  inp.vehicles.getD r ⟨0, none, none, [], DEFAULT_TW, [], ""⟩

inductive STEP_TYPE | START | JOB | BREAK | END
deriving DecidableEq

structure ForcedService where
  at_ : Option Nat
  after : Option Nat
  before : Option Nat
deriving DecidableEq

structure InputStep where
  type : STEP_TYPE
  rank : Nat
  job_type : JOB_TYPE
  forced_service : ForcedService
deriving DecidableEq

def dfltInputStep : InputStep := ⟨.START, 0, .SINGLE, ⟨none, none, none⟩⟩

/-- `++B.back()` on a non-empty vector. -/
def incLast : List Nat → List Nat
  | [] => []
  | [x] => [x + 1]
  | x :: xs => x :: incLast xs

/-- State of the first loop of `choose_invalid_route` (lines 36-130):
time-window count `K`, non-break task ranks `J`, break counts `B`,
per-`J` travel durations, the raw planning horizon, and the route
indicators. -/
structure AnalyzeState where
  K : Nat
  J : List Nat
  B : List Nat
  durations : List Nat
  horizon_start : Nat
  horizon_end : Nat
  last_index : Option Nat
  service_sum : Nat
  duration_sum : Nat
  default_job_tw : Nat
  i : Nat

def analyzeStep (inp : VInput) (v : VVehicle) (s : AnalyzeState)
    (step : InputStep) : AnalyzeState :=
  match step.type with
  | .START =>
    { s with
      last_index := if v.has_start then v.start else s.last_index,
      J := s.J ++ [s.i], B := s.B ++ [0], i := s.i + 1 }
  | .JOB =>
    let job := inp.job step.rank
    let current_duration :=
      match s.last_index with
      | some li => inp.matrix li job.index
      | none => 0
    let front_default := (job.tws.headD DEFAULT_TW).is_default
    { s with
      K := s.K + job.tws.length,
      J := s.J ++ [s.i], B := s.B ++ [0],
      service_sum := s.service_sum + job.service,
      default_job_tw :=
        if front_default then s.default_job_tw + 1 else s.default_job_tw,
      horizon_start :=
        if front_default then s.horizon_start
        else min s.horizon_start (job.tws.headD DEFAULT_TW).start,
      horizon_end :=
        if front_default then s.horizon_end
        else max s.horizon_end (job.tws.getLastD DEFAULT_TW).stop,
      durations := s.durations ++ [current_duration],
      duration_sum := s.duration_sum + current_duration,
      last_index := some job.index,
      i := s.i + 1 }
  | .BREAK =>
    let b := v.brk step.rank
    let front_default := (b.tws.headD DEFAULT_TW).is_default
    { s with
      K := s.K + b.tws.length,
      B := incLast s.B, i := s.i + 1,
      service_sum := s.service_sum + b.service,
      horizon_start :=
        if front_default then s.horizon_start
        else min s.horizon_start (b.tws.headD DEFAULT_TW).start,
      horizon_end :=
        if front_default then s.horizon_end
        else max s.horizon_end (b.tws.getLastD DEFAULT_TW).stop }
  | .END =>
    match v.stop, s.last_index with
    | some e, some li =>
      let current_duration := inp.matrix li e
      { s with
        durations := s.durations ++ [current_duration],
        duration_sum := s.duration_sum + current_duration }
    | _, _ => { s with durations := s.durations ++ [0] }

def initAnalyzeState (v : VVehicle) : AnalyzeState :=
  { K := 0, J := [], B := [], durations := [],
    horizon_start := if v.tw.is_default then durMax else min durMax v.tw.start,
    horizon_end := if v.tw.is_default then 0 else max 0 v.tw.stop,
    last_index := none, service_sum := 0, duration_sum := 0,
    default_job_tw := 0, i := 0 }

def analyzeSteps (inp : VInput) (v : VVehicle) (steps : List InputStep) :
    AnalyzeState :=
  steps.foldl (analyzeStep inp v) (initAnalyzeState v)

/-- Refined planning horizon and makespan estimate (lines 132-154). -/
structure Horizon where
  horizon_start : Nat
  horizon_end : Nat
  makespan_estimate : Nat

def refineHorizon (s : AnalyzeState) : Horizon :=
  let me := s.duration_sum + s.service_sum
  if s.horizon_start = durMax then
    { horizon_start := 0, horizon_end := 10 * me, makespan_estimate := me }
  else
    let me := if me = 0 then s.horizon_end - s.horizon_start else me
    let hs := if me < s.horizon_start then s.horizon_start - me else 0
    { horizon_start := hs, horizon_end := s.horizon_end + me,
      makespan_estimate := me }

/-- State of the `t_i` bound loop (lines 159-247); the loop also mutates
the planning horizon when forced service times fall outside it.  (The
`first_relevant_tw_rank` bookkeeping of the same loop only pins some
binary columns to zero and is referenced by no claim.) -/
structure BoundsState where
  horizon_start : Nat
  horizon_end : Nat
  previous_LB : Nat
  previous_service : Nat
  previous_travel : Nat
  rank_in_J : Nat
  t_i_LB : List Nat
  t_i_UB : List Nat

def boundsStep (inp : VInput) (v : VVehicle) (durations : List Nat)
    (st : BoundsState) (step : InputStep) : BoundsState :=
  let s1 :=
    match step.forced_service.at_ with
    | some fa => (min st.horizon_start fa, max st.horizon_end fa, fa, fa)
    | none => (st.horizon_start, st.horizon_end, st.horizon_start,
        st.horizon_end)
  let s2 :=
    match step.forced_service.after with
    | some fa => (min s1.1 fa, max s1.2.1 fa, fa, s1.2.2.2)
    | none => s1
  let s3 :=
    match step.forced_service.before with
    | some fb => (min s2.1 fb, max s2.2.1 fb, s2.2.2.1, fb)
    | none => s2
  let hs := s3.1
  let he := s3.2.1
  let LB := s3.2.2.1
  let UB := s3.2.2.2
  match step.type with
  | .START =>
    { horizon_start := hs, horizon_end := he,
      previous_LB := LB, previous_service := st.previous_service,
      previous_travel := st.previous_travel,
      rank_in_J := st.rank_in_J + 1,
      t_i_LB := st.t_i_LB ++ [LB], t_i_UB := st.t_i_UB ++ [UB] }
  | .JOB =>
    let LB := max LB
      (st.previous_LB + st.previous_service + st.previous_travel)
    { horizon_start := hs, horizon_end := he,
      previous_LB := LB,
      previous_service := (inp.job step.rank).service,
      previous_travel := durations.getD st.rank_in_J 0,
      rank_in_J := st.rank_in_J + 1,
      t_i_LB := st.t_i_LB ++ [LB], t_i_UB := st.t_i_UB ++ [UB] }
  | .BREAK =>
    let LB := max LB (st.previous_LB + st.previous_service)
    { horizon_start := hs, horizon_end := he,
      previous_LB := LB,
      previous_service := (v.brk step.rank).service,
      previous_travel := st.previous_travel,
      rank_in_J := st.rank_in_J,
      t_i_LB := st.t_i_LB ++ [LB], t_i_UB := st.t_i_UB ++ [UB] }
  | .END =>
    let LB := max LB
      (st.previous_LB + st.previous_service + st.previous_travel)
    { horizon_start := hs, horizon_end := he,
      previous_LB := st.previous_LB,
      previous_service := st.previous_service,
      previous_travel := st.previous_travel,
      rank_in_J := st.rank_in_J,
      t_i_LB := st.t_i_LB ++ [LB], t_i_UB := st.t_i_UB ++ [UB] }

def computeBounds (inp : VInput) (v : VVehicle) (durations : List Nat)
    (h : Horizon) (steps : List InputStep) : BoundsState :=
  steps.foldl (boundsStep inp v durations)
    { horizon_start := h.horizon_start, horizon_end := h.horizon_end,
      previous_LB := h.horizon_start, previous_service := 0,
      previous_travel := durations.headD 0, rank_in_J := 0,
      t_i_LB := [], t_i_UB := [] }

/-! ### Column layout and first-round objective -/

def start_Y_col (n : Nat) : Nat := n + 3

def start_X_col (n : Nat) : Nat := 2 * n + 4 + 1

def start_delta_col (n K : Nat) : Nat := start_X_col n + K

def nb_var (n K : Nat) : Nat := start_delta_col n K + n

/-- One `glp_set_obj_coef` call on a coefficient assignment (columns
start at 1; `glp_add_cols` leaves fresh coefficients at 0). -/
def setObjCoef (f : Nat → Int) (c : Nat) (x : Int) : Nat → Int :=
  fun c2 => if c2 = c then x else f c2

/-- The first-round objective coefficients (lines 268-275): coefficient
`makespan_estimate` on every `Y` column, `1` on the route end `t` column
`n + 2`, `-1` on the route start `t` column `1`. -/
def round1_obj (n : Nat) (makespan_estimate : Nat) : Nat → Int :=
  let f0 : Nat → Int := fun _ => 0
  let f1 := (List.range (n + 2)).foldl
    (fun f i => setObjCoef f (start_Y_col n + i) (makespan_estimate : Int)) f0
  let f2 := setObjCoef f1 (n + 2) 1
  setObjCoef f2 1 (-1)

/-- The objective value GLPK minimizes in the first round: loaded
coefficients applied to a column assignment. -/
def code_round1_objective (n K : Nat) (makespan_estimate : Nat)
    (sol : Nat → Int) : Int :=
  (Finset.Icc 1 (nb_var n K)).sum fun c => round1_obj n makespan_estimate c * sol c

/-- Modelled from the spec: the round-1 objective as the spec words it,
`(vehicle-end - vehicle-start) * M_m + Sigma Y_i` with
`M_m = service_sum + travel_sum`. -/
def spec_round1_objective (n : Nat) (service_sum travel_sum : Nat)
    (sol : Nat → Int) : Int :=
  (sol (n + 2) - sol 1) * ((service_sum : Int) + (travel_sum : Int)) +
    (Finset.range (n + 2)).sum fun i => sol (start_Y_col n + i)

/-! ### Solver interface -/

inductive GLP_STATUS | OPT | FEAS | NOFEAS | UNDEF
deriving DecidableEq

/-- The MIP solver outcome: the status reported after each of the two
`glp_intopt` calls, and the (rounded, cf. `get_duration`) column values
read back after the second solve. -/
structure MipOracle where
  status1 : GLP_STATUS
  status2 : GLP_STATUS
  col : Nat → Nat

inductive ERR | INPUT | ROUTING | INTERNAL
deriving DecidableEq

structure VErr where
  kind : ERR
  msg : String
deriving DecidableEq

instance {ε α : Type} [DecidableEq ε] [DecidableEq α] :
    DecidableEq (Except ε α)
  | .error x, .error y =>
    if h : x = y then .isTrue (by rw [h])
    else .isFalse (fun hc => h (by injection hc))
  | .error _, .ok _ => .isFalse (fun hc => Except.noConfusion hc)
  | .ok _, .error _ => .isFalse (fun hc => Except.noConfusion hc)
  | .ok x, .ok y =>
    if h : x = y then .isTrue (by rw [h])
    else .isFalse (fun hc => h (by injection hc))

/-- GLPK resource events of `choose_invalid_route`: `glp_create_prob`,
`glp_delete_prob`, `glp_free_env`. -/
inductive GlpEvent | create_prob | delete_prob | free_env
deriving DecidableEq

inductive VIOLATION | LEAD_TIME | DELAY | LOAD | MISSING_BREAK | PRECEDENCE | SKILLS
deriving DecidableEq

structure StepViolations where
  types : List VIOLATION
  lead_time : Nat
  delay : Nat
deriving DecidableEq

structure SolStep where
  step_type : STEP_TYPE
  rank : Nat
  load : Amount
  arrival : Nat
  duration : Nat
  waiting_time : Nat
  violations : StepViolations
deriving DecidableEq

def dfltSolStep : SolStep := ⟨.START, 0, [], 0, 0, 0, ⟨[], 0, 0⟩⟩

structure Violations where
  lead_time : Nat
  delay : Nat
  start_lead_time : Nat
  end_delay : Nat
  types : List VIOLATION
deriving DecidableEq

structure Route where
  vehicle_id : Nat
  steps : List SolStep
  cost : Nat
  service : Nat
  duration : Nat
  waiting_time : Nat
  priority : Nat
  deliveries : Amount
  pickups : Amount
  description : String
  violations : Violations
deriving DecidableEq

/-- Insert a violation type when the flag holds (C++
`unordered_set::insert` under an `if`). -/
def insertIf (c : Bool) (t : VIOLATION) (l : List VIOLATION) :
    List VIOLATION :=
  if c then l.insert t else l

/-- Startup load (lines 796-802): the sum of deliveries over the
`SINGLE` job steps of the sequence. -/
def startup_load (inp : VInput) (steps : List InputStep) : Amount :=
  steps.foldl
    (fun acc step =>
      if step.type = .JOB ∧ step.job_type = .SINGLE then
        amountAdd acc (inp.job step.rank).delivery
      else acc)
    inp.zero_amount

/-- Modelled from the spec: `Startup load = Σ deliveries of singles and
of pickup-delivery pairs in route` — the deliveries of every job step of
the sequence. -/
def spec_startup_load (inp : VInput) (steps : List InputStep) : Amount :=
  steps.foldl
    (fun acc step =>
      if step.type = .JOB then amountAdd acc (inp.job step.rank).delivery
      else acc)
    inp.zero_amount

/-- Values read back from the solved MIP (lines 726-780). -/
structure SolverData where
  v_start : Nat
  v_end : Nat
  start_lead_time : Nat
  end_delay : Nat
  start_travel : Nat
  task_ETA : List Nat
  task_travels : List Nat
  task_tw_ranks : List Nat

/-- Picked time-window ranks: walk the binary columns in step order and
record the rank of each column valued 1 (lines 744-780). -/
def extract_tw_ranks (inp : VInput) (v : VVehicle) (o : MipOracle)
    (startX : Nat) (steps : List InputStep) : List Nat :=
  (steps.foldl
    (fun (acc : Nat × List Nat) step =>
      match step.type with
      | .JOB =>
        (List.range (inp.job step.rank).tws.length).foldl
          (fun a k =>
            if o.col a.1 = 1 then (a.1 + 1, a.2 ++ [k])
            else (a.1 + 1, a.2)) acc
      | .BREAK =>
        (List.range (v.brk step.rank).tws.length).foldl
          (fun a k =>
            if o.col a.1 = 1 then (a.1 + 1, a.2 ++ [k])
            else (a.1 + 1, a.2)) acc
      | _ => acc)
    (startX, [])).2

def mkSolverData (inp : VInput) (v : VVehicle) (steps : List InputStep)
    (n K hs : Nat) (o : MipOracle) : SolverData :=
  { v_start := hs + o.col 1
  , v_end := hs + o.col (n + 2)
  , start_lead_time := o.col (start_Y_col n)
  , end_delay := o.col (2 * n + 4)
  , start_travel := o.col (start_delta_col n K)
  , task_ETA := (List.range n).map fun i => hs + o.col (i + 2)
  , task_travels := (List.range n).map fun i =>
      o.col (start_delta_col n K + 1 + i)
  , task_tw_ranks := extract_tw_ranks inp v o (start_X_col n) steps }

/-! ### Route generation (lines 786-1058) -/

/-- Mutable state of the route-generation pass. -/
structure GenState where
  duration : Nat
  service : Nat
  forward_wt : Nat
  priority : Nat
  sum_pickups : Amount
  sum_deliveries : Amount
  lead_time : Nat
  delay : Nat
  v_types : List VIOLATION
  current_load : Amount
  previous_over_capacity : Bool
  expected_delivery_ranks : List Nat
  delivery_first_ranks : List Nat
  delivery_to_pickup_step_rank : List (Nat × Nat)
  break_ids : List Nat
  sol_steps : List SolStep
  previous_start : Nat
  previous_service : Nat
  previous_travel : Nat
  task_rank : Nat
  unassigned : List Nat

/-- Initial generation state, including the start step when the vehicle
has one (lines 786-847). -/
def initGenState (inp : VInput) (v : VVehicle) (steps : List InputStep)
    (sd : SolverData) (unassigned : List Nat) : GenState :=
  let current_load := startup_load inp steps
  let previous_over_capacity := !(amountLE current_load v.capacity)
  let base : GenState :=
    { duration := 0, service := 0, forward_wt := 0, priority := 0,
      sum_pickups := inp.zero_amount, sum_deliveries := inp.zero_amount,
      lead_time := 0, delay := 0, v_types := [],
      current_load := current_load,
      previous_over_capacity := previous_over_capacity,
      expected_delivery_ranks := [], delivery_first_ranks := [],
      delivery_to_pickup_step_rank := [],
      break_ids := v.breaks.map fun b => b.id,
      sol_steps := [],
      previous_start := sd.v_start, previous_service := 0,
      previous_travel := sd.start_travel, task_rank := 0,
      unassigned := unassigned }
  if v.has_start then
    let lt_flag : Bool := decide (sd.v_start < v.tw.start)
    let lt := if sd.v_start < v.tw.start then v.tw.start - sd.v_start else 0
    let types := insertIf previous_over_capacity VIOLATION.LOAD
      (insertIf lt_flag VIOLATION.LEAD_TIME [])
    { base with
      sol_steps := [{
        step_type := .START, rank := 0, load := current_load,
        arrival := sd.v_start, duration := 0, waiting_time := 0,
        violations := { types := types, lead_time := lt, delay := 0 } }],
      lead_time := lt,
      v_types := insertIf previous_over_capacity VIOLATION.LOAD
        (insertIf lt_flag VIOLATION.LEAD_TIME []) }
  else
    { base with lead_time := sd.start_lead_time }

/-- One iteration of the generation loop (lines 849-1020). -/
def genStep (inp : VInput) (vehicle_rank : Nat) (v : VVehicle)
    (sd : SolverData) (g : GenState) (step : InputStep) : GenState :=
  match step.type with
  | .START => g
  | .JOB =>
    let job_rank := step.rank
    let job := inp.job job_rank
    let current_load :=
      amountSub (amountAdd g.current_load job.pickup) job.delivery
    let duration := g.duration + g.previous_travel
    let arrival := g.previous_start + g.previous_service + g.previous_travel
    let service_start := sd.task_ETA.getD g.task_rank 0
    let wt := service_start - arrival
    let tw := job.tws.getD (sd.task_tw_ranks.getD g.task_rank 0) DEFAULT_TW
    let lt_flag : Bool := decide (service_start < tw.start)
    let lt := if service_start < tw.start then tw.start - service_start else 0
    let dl_flag : Bool := decide (tw.stop < service_start)
    let dl := if tw.stop < service_start then service_start - tw.stop else 0
    let over_capacity := !(amountLE current_load v.capacity)
    let load_flag := g.previous_over_capacity || over_capacity
    let skills_flag := !(inp.vehicle_ok_with_job vehicle_rank job_rank)
    let prec_flag : Bool :=
      (decide (job.type = .PICKUP) &&
        decide ((job_rank + 1) ∈ g.delivery_first_ranks)) ||
      (decide (job.type = .DELIVERY) &&
        !(decide (job_rank ∈ g.expected_delivery_ranks)))
    let types := insertIf prec_flag VIOLATION.PRECEDENCE
      (insertIf skills_flag VIOLATION.SKILLS
        (insertIf load_flag VIOLATION.LOAD
          (insertIf dl_flag VIOLATION.DELAY
            (insertIf lt_flag VIOLATION.LEAD_TIME []))))
    let new_step : SolStep :=
      { step_type := .JOB, rank := job_rank, load := current_load,
        arrival := arrival, duration := duration, waiting_time := wt,
        violations := { types := types, lead_time := lt, delay := dl } }
    let expected :=
      if job.type = .PICKUP ∧ ¬ (job_rank + 1) ∈ g.delivery_first_ranks then
        g.expected_delivery_ranks.insert (job_rank + 1)
      else if job.type = .DELIVERY ∧ job_rank ∈ g.expected_delivery_ranks then
        g.expected_delivery_ranks.erase job_rank
      else g.expected_delivery_ranks
    let delivery_first :=
      if job.type = .DELIVERY ∧ ¬ job_rank ∈ g.expected_delivery_ranks then
        g.delivery_first_ranks.insert job_rank
      else g.delivery_first_ranks
    let delivery_to_pickup :=
      if job.type = .PICKUP ∧ ¬ (job_rank + 1) ∈ g.delivery_first_ranks then
        g.delivery_to_pickup_step_rank ++ [(job_rank + 1, g.sol_steps.length)]
      else g.delivery_to_pickup_step_rank
    { g with
      service := g.service + job.service,
      priority := g.priority + job.priority,
      current_load := current_load,
      sum_pickups := amountAdd g.sum_pickups job.pickup,
      sum_deliveries := amountAdd g.sum_deliveries job.delivery,
      duration := duration,
      forward_wt := g.forward_wt + wt,
      lead_time := g.lead_time + lt,
      delay := g.delay + dl,
      v_types := insertIf prec_flag VIOLATION.PRECEDENCE
        (insertIf skills_flag VIOLATION.SKILLS
          (insertIf load_flag VIOLATION.LOAD
            (insertIf dl_flag VIOLATION.DELAY
              (insertIf lt_flag VIOLATION.LEAD_TIME g.v_types)))),
      previous_over_capacity := over_capacity,
      expected_delivery_ranks := expected,
      delivery_first_ranks := delivery_first,
      delivery_to_pickup_step_rank := delivery_to_pickup,
      sol_steps := g.sol_steps ++ [new_step],
      previous_start := service_start,
      previous_service := job.service,
      previous_travel := sd.task_travels.getD g.task_rank 0,
      task_rank := g.task_rank + 1,
      unassigned := g.unassigned.erase job_rank }
  | .BREAK =>
    let break_rank := step.rank
    let b := v.brk break_rank
    let duration := g.duration + g.previous_travel
    let arrival := g.previous_start + g.previous_service + g.previous_travel
    let service_start := sd.task_ETA.getD g.task_rank 0
    let wt := service_start - arrival
    let tw := b.tws.getD (sd.task_tw_ranks.getD g.task_rank 0) DEFAULT_TW
    let lt_flag : Bool := decide (service_start < tw.start)
    let lt := if service_start < tw.start then tw.start - service_start else 0
    let dl_flag : Bool := decide (tw.stop < service_start)
    let dl := if tw.stop < service_start then service_start - tw.stop else 0
    let types := insertIf g.previous_over_capacity VIOLATION.LOAD
      (insertIf dl_flag VIOLATION.DELAY
        (insertIf lt_flag VIOLATION.LEAD_TIME []))
    let new_step : SolStep :=
      { step_type := .BREAK, rank := break_rank, load := g.current_load,
        arrival := arrival, duration := duration, waiting_time := wt,
        violations := { types := types, lead_time := lt, delay := dl } }
    { g with
      service := g.service + b.service,
      duration := duration,
      forward_wt := g.forward_wt + wt,
      lead_time := g.lead_time + lt,
      delay := g.delay + dl,
      v_types := insertIf g.previous_over_capacity VIOLATION.LOAD
        (insertIf dl_flag VIOLATION.DELAY
          (insertIf lt_flag VIOLATION.LEAD_TIME g.v_types)),
      break_ids := g.break_ids.erase b.id,
      sol_steps := g.sol_steps ++ [new_step],
      previous_start := service_start,
      previous_service := b.service,
      previous_travel := sd.task_travels.getD g.task_rank 0,
      task_rank := g.task_rank + 1 }
  | .END =>
    if v.has_end then
      let duration := g.duration + g.previous_travel
      let arrival := g.previous_start + g.previous_service + g.previous_travel
      let wt := sd.v_end - arrival
      let dl_flag : Bool := decide (v.tw.stop < sd.v_end)
      let dl := if v.tw.stop < sd.v_end then sd.v_end - v.tw.stop else 0
      let types := insertIf g.previous_over_capacity VIOLATION.LOAD
        (insertIf dl_flag VIOLATION.DELAY [])
      let new_step : SolStep :=
        { step_type := .END, rank := 0, load := g.current_load,
          arrival := arrival, duration := duration, waiting_time := wt,
          violations := { types := types, lead_time := 0, delay := dl } }
      { g with
        duration := duration,
        forward_wt := g.forward_wt + wt,
        delay := g.delay + dl,
        v_types := insertIf g.previous_over_capacity VIOLATION.LOAD
          (insertIf dl_flag VIOLATION.DELAY g.v_types),
        sol_steps := g.sol_steps ++ [new_step] }
    else g

/-- Add `PRECEDENCE` to the violations of the sol step at `idx`. -/
def insertViolAt (stps : List SolStep) (idx : Nat) : List SolStep :=
  match stps.get? idx with
  | some s => stps.set idx
      { s with violations :=
        { s.violations with
          types := s.violations.types.insert VIOLATION.PRECEDENCE } }
  | none => stps

/-- One precedence fixup: mark the pickup step of an unmatched expected
delivery rank. -/
def fixupOne (gg : GenState) (d_rank : Nat) : GenState :=
  match gg.delivery_to_pickup_step_rank.find? (fun p => p.1 == d_rank) with
  | some p =>
    { gg with
      sol_steps := insertViolAt gg.sol_steps p.2,
      v_types := gg.v_types.insert VIOLATION.PRECEDENCE }
  | none => gg

/-- Post-loop fixups (lines 1022-1042): unmatched end delay, precedence
violations for pickups without a delivery, missing breaks. -/
def finalizeGen (v : VVehicle) (sd : SolverData) (g : GenState) : GenState :=
  let g :=
    if v.has_end then g else { g with delay := g.delay + sd.end_delay }
  let g := g.expected_delivery_ranks.foldl fixupOne g
  if g.break_ids ≠ [] then
    { g with v_types := g.v_types.insert VIOLATION.MISSING_BREAK }
  else g

/-- Assemble the `Route` (lines 786-1058), returning also the updated
unassigned set. -/
def buildRoute (inp : VInput) (vehicle_rank : Nat) (steps : List InputStep)
    (sd : SolverData) (unassigned : List Nat) : Route × List Nat :=
  let v := inp.vehicle vehicle_rank
  let g0 := initGenState inp v steps sd unassigned
  let g1 := steps.foldl (genStep inp vehicle_rank v sd) g0
  let g := finalizeGen v sd g1
  ({ vehicle_id := v.id, steps := g.sol_steps, cost := g.duration,
     service := g.service, duration := g.duration,
     waiting_time := g.forward_wt, priority := g.priority,
     deliveries := g.sum_deliveries, pickups := g.sum_pickups,
     description := v.description,
     violations := {
       lead_time := g.lead_time, delay := g.delay,
       start_lead_time := sd.start_lead_time, end_delay := sd.end_delay,
       types := g.v_types } }, g.unassigned)

def infeasible_msg (v : VVehicle) : String :=
  "Infeasible route for vehicle " ++ toString v.id ++ "."

/-- Some step has contradictory derived time bounds (`UB < LB`), the
condition under which the `t_i` column setup throws (line 375). -/
def bounds_contradictory (inp : VInput) (vehicle_rank : Nat)
    (steps : List InputStep) : Bool :=
  let v := inp.vehicle vehicle_rank
  let a := analyzeSteps inp v steps
  let bst := computeBounds inp v a.durations (refineHorizon a) steps
  (List.zip bst.t_i_LB bst.t_i_UB).any fun p => decide (p.2 < p.1)

/-- `choose_invalid_route`, with the two `glp_intopt` outcomes abstracted
by `o` and the GLPK resource events traced.  The `t_i` column setup
throws as soon as some step has contradictory bounds (line 375); the two
status checks throw on `GLP_UNDEF`/`GLP_NOFEAS` (lines 658-663 and
716-721); `glp_delete_prob`/`glp_free_env` run only on the successful
path (lines 782-783). -/
def choose_invalid_route (inp : VInput) (vehicle_rank : Nat)
    (steps : List InputStep) (o : MipOracle) (unassigned : List Nat) :
    Except VErr (Route × List Nat) × List GlpEvent :=
  let v := inp.vehicle vehicle_rank
  let a := analyzeSteps inp v steps
  let h := refineHorizon a
  let bst := computeBounds inp v a.durations h steps
  let n := steps.length - 2
  let events := [GlpEvent.create_prob]
  if bounds_contradictory inp vehicle_rank steps then
    (.error ⟨ERR.INPUT, infeasible_msg v⟩, events)
  else if o.status1 = .UNDEF ∨ o.status1 = .NOFEAS then
    (.error ⟨ERR.INPUT, infeasible_msg v⟩, events)
  else if o.status2 = .UNDEF ∨ o.status2 = .NOFEAS then
    (.error ⟨ERR.INPUT, infeasible_msg v⟩, events)
  else
    let events := events ++ [GlpEvent.delete_prob, GlpEvent.free_env]
    let sd := mkSolverData inp v steps n a.K bst.horizon_start o
    (.ok (buildRoute inp vehicle_rank steps sd unassigned), events)

/-! ### C1: the first-round objective -/

theorem foldl_setObjCoef_range (f : Nat → Int) (x : Int) (k m c : Nat) :
    ((List.range m).foldl (fun g i => setObjCoef g (k + i) x) f) c =
      if k ≤ c ∧ c < k + m then x else f c := by
  induction m with
  | zero =>
    simp only [List.range_zero, List.foldl_nil]
    have : ¬ (k ≤ c ∧ c < k + 0) := by omega
    rw [if_neg this]
  | succ m ih =>
    rw [List.range_succ, List.foldl_append, List.foldl_cons, List.foldl_nil]
    show (if c = k + m then x else
      ((List.range m).foldl (fun g i => setObjCoef g (k + i) x) f) c) = _
    rw [ih]
    by_cases hc : c = k + m
    · have : k ≤ c ∧ c < k + (m + 1) := by omega
      rw [if_pos hc, if_pos this]
    · by_cases h2 : k ≤ c ∧ c < k + m
      · have : k ≤ c ∧ c < k + (m + 1) := by omega
        rw [if_neg hc, if_pos h2, if_pos this]
      · have : ¬ (k ≤ c ∧ c < k + (m + 1)) := by omega
        rw [if_neg hc, if_neg h2, if_neg this]

theorem round1_obj_eval (n M c : Nat) :
    round1_obj n M c =
      if c = 1 then -1
      else if c = n + 2 then 1
      else if n + 3 ≤ c ∧ c < 2 * n + 5 then (M : Int)
      else 0 := by
  show (setObjCoef (setObjCoef _ (n + 2) 1) 1 (-1)) c = _
  simp only [setObjCoef, start_Y_col]
  rw [foldl_setObjCoef_range]
  have he : n + 3 + (n + 2) = 2 * n + 5 := by omega
  rw [he]

theorem code_round1_objective_form (n K M : Nat) (sol : Nat → Int) :
    code_round1_objective n K M sol =
      (sol (n + 2) - sol 1) +
        (M : Int) * (Finset.range (n + 2)).sum fun i => sol (n + 3 + i) := by
  have hcoef : ∀ c ∈ Finset.Icc 1 (nb_var n K), round1_obj n M c * sol c =
      (if c = 1 then -sol 1 else 0) +
      ((if c = n + 2 then sol (n + 2) else 0) +
       (if n + 3 ≤ c ∧ c < 2 * n + 5 then (M : Int) * sol c else 0)) := by
    intro c _
    rw [round1_obj_eval]
    by_cases h1 : c = 1
    · have h2 : ¬ c = n + 2 := by omega
      have h3 : ¬ (n + 3 ≤ c ∧ c < 2 * n + 5) := by omega
      rw [if_pos h1, if_pos h1, if_neg h2, if_neg h3, h1]
      ring
    · by_cases h2 : c = n + 2
      · have h3 : ¬ (n + 3 ≤ c ∧ c < 2 * n + 5) := by omega
        rw [if_neg h1, if_pos h2, if_neg h1, if_pos h2, if_neg h3, h2]
        ring
      · by_cases h3 : n + 3 ≤ c ∧ c < 2 * n + 5
        · rw [if_neg h1, if_neg h2, if_pos h3, if_neg h1, if_neg h2,
            if_pos h3]
          ring
        · rw [if_neg h1, if_neg h2, if_neg h3, if_neg h1, if_neg h2,
            if_neg h3]
          ring
  unfold code_round1_objective
  rw [Finset.sum_congr rfl hcoef]
  rw [Finset.sum_add_distrib, Finset.sum_add_distrib]
  have hv : 2 * n + 5 ≤ nb_var n K := by
    unfold nb_var start_delta_col start_X_col
    omega
  have hm1 : (1 : Nat) ∈ Finset.Icc 1 (nb_var n K) := by
    rw [Finset.mem_Icc]
    omega
  have hm2 : n + 2 ∈ Finset.Icc 1 (nb_var n K) := by
    rw [Finset.mem_Icc]
    omega
  have e1 : ((Finset.Icc 1 (nb_var n K)).sum fun c =>
      if c = 1 then -sol 1 else 0) = -sol 1 := by
    rw [Finset.sum_ite_eq' (Finset.Icc 1 (nb_var n K)) 1 fun _ => -sol 1,
      if_pos hm1]
  have e2 : ((Finset.Icc 1 (nb_var n K)).sum fun c =>
      if c = n + 2 then sol (n + 2) else 0) = sol (n + 2) := by
    rw [Finset.sum_ite_eq' (Finset.Icc 1 (nb_var n K)) (n + 2)
      fun _ => sol (n + 2), if_pos hm2]
  have e3 : ((Finset.Icc 1 (nb_var n K)).sum fun c =>
      if n + 3 ≤ c ∧ c < 2 * n + 5 then (M : Int) * sol c else 0) =
      (M : Int) * (Finset.range (n + 2)).sum fun i => sol (n + 3 + i) := by
    rw [← Finset.sum_filter]
    have hf : (Finset.Icc 1 (nb_var n K)).filter
        (fun c => n + 3 ≤ c ∧ c < 2 * n + 5) = Finset.Icc (n + 3) (2 * n + 4) := by
      ext c
      simp only [Finset.mem_filter, Finset.mem_Icc]
      omega
    rw [hf, ← Nat.Ico_succ_right, Finset.sum_Ico_eq_sum_range]
    have hr : 2 * n + 4 + 1 - (n + 3) = n + 2 := by omega
    rw [hr, Finset.mul_sum]
  rw [e1, e2, e3]
  ring

/-- C1 (amended): for a sequence whose travel plus service total is
non-zero, the makespan estimate `M_m` equals `travel_sum + service_sum`,
and the loaded first-round objective is
`(vehicle-end - vehicle-start) + M_m * Sigma Y_i` — the big constant
multiplies the violation slacks, not the makespan. -/
theorem round1_objective_characterization
    (inp : VInput) (vehicle_rank : Nat) (steps : List InputStep)
    (K : Nat) (sol : Nat → Int)
    (hsum : (analyzeSteps inp (inp.vehicle vehicle_rank) steps).duration_sum +
      (analyzeSteps inp (inp.vehicle vehicle_rank) steps).service_sum ≠ 0) :
    (refineHorizon
        (analyzeSteps inp (inp.vehicle vehicle_rank) steps)).makespan_estimate =
      (analyzeSteps inp (inp.vehicle vehicle_rank) steps).duration_sum +
        (analyzeSteps inp (inp.vehicle vehicle_rank) steps).service_sum ∧
    code_round1_objective (steps.length - 2) K
        (refineHorizon
          (analyzeSteps inp (inp.vehicle vehicle_rank) steps)).makespan_estimate
        sol =
      (sol (steps.length - 2 + 2) - sol 1) +
        (((analyzeSteps inp (inp.vehicle vehicle_rank) steps).duration_sum +
          (analyzeSteps inp (inp.vehicle vehicle_rank) steps).service_sum : Nat) :
            Int) *
          (Finset.range (steps.length - 2 + 2)).sum
            (fun i => sol (steps.length - 2 + 3 + i)) := by
  have hme : (refineHorizon
      (analyzeSteps inp (inp.vehicle vehicle_rank) steps)).makespan_estimate =
      (analyzeSteps inp (inp.vehicle vehicle_rank) steps).duration_sum +
        (analyzeSteps inp (inp.vehicle vehicle_rank) steps).service_sum := by
    unfold refineHorizon
    split
    · rfl
    · simp only [if_neg hsum]
  refine ⟨hme, ?_⟩
  rw [hme, code_round1_objective_form]

/-! ### Shared concrete instance for the validator counterexamples -/

/-- One default-time-window job between a start and an end, travel 25 on
each leg, no service; the vehicle time window is `[100, 101]`. -/
def cexInp : VInput :=
  { jobs := [⟨1, .SINGLE, 1, 0, 0, [0], [0], [DEFAULT_TW]⟩]
  , vehicles := [⟨1, some 0, some 2, [10], ⟨100, 101⟩, [], "v"⟩]
  , matrix := fun _ _ => 25
  , amount_size := 1
  , vehicle_ok_with_job := fun _ _ => true }

def cexSteps : List InputStep :=
  [⟨.START, 0, .SINGLE, ⟨none, none, none⟩⟩,
   ⟨.JOB, 0, .SINGLE, ⟨none, none, none⟩⟩,
   ⟨.END, 0, .SINGLE, ⟨none, none, none⟩⟩]

/-- C1 counterexample: the objective the spec describes
(`(end - start) * M_m + Sigma Y_i`) differs from the objective the code
loads, already at the all-ones assignment. -/
theorem round1_objective_spec_mismatch :
    spec_round1_objective 1
        (analyzeSteps cexInp (cexInp.vehicle 0) cexSteps).service_sum
        (analyzeSteps cexInp (cexInp.vehicle 0) cexSteps).duration_sum
        (fun _ => 1) ≠
      code_round1_objective 1
        (analyzeSteps cexInp (cexInp.vehicle 0) cexSteps).K
        (refineHorizon
          (analyzeSteps cexInp (cexInp.vehicle 0) cexSteps)).makespan_estimate
        (fun _ => 1) := by
  decide

theorem round1_objective_characterization_witness :
    ((analyzeSteps cexInp (cexInp.vehicle 0) cexSteps).duration_sum +
      (analyzeSteps cexInp (cexInp.vehicle 0) cexSteps).service_sum ≠ 0) ∧
    (refineHorizon
        (analyzeSteps cexInp (cexInp.vehicle 0) cexSteps)).makespan_estimate =
      (analyzeSteps cexInp (cexInp.vehicle 0) cexSteps).duration_sum +
        (analyzeSteps cexInp (cexInp.vehicle 0) cexSteps).service_sum ∧
    code_round1_objective (cexSteps.length - 2) 1
        (refineHorizon
          (analyzeSteps cexInp (cexInp.vehicle 0) cexSteps)).makespan_estimate
        (fun _ => 1) =
      ((1 : Int) - 1) +
        (((analyzeSteps cexInp (cexInp.vehicle 0) cexSteps).duration_sum +
          (analyzeSteps cexInp (cexInp.vehicle 0) cexSteps).service_sum : Nat) :
            Int) *
          (Finset.range (cexSteps.length - 2 + 2)).sum (fun _ => (1 : Int)) :=
  ⟨by decide,
    (round1_objective_characterization cexInp 0 cexSteps 1 (fun _ => 1)
      (by decide)).1,
    (round1_objective_characterization cexInp 0 cexSteps 1 (fun _ => 1)
      (by decide)).2⟩

/-! ### C2 and C3: outcomes and resource events of
`choose_invalid_route` -/

/-- C2: contradictory step bounds, or `GLP_UNDEF`/`GLP_NOFEAS` after
either solving round, make `choose_invalid_route` exit with an `INPUT`
error naming the offending vehicle and no route; otherwise it returns a
`Route`. -/
theorem choose_invalid_route_outcomes
    (inp : VInput) (vehicle_rank : Nat) (steps : List InputStep)
    (o : MipOracle) (unassigned : List Nat) :
    (bounds_contradictory inp vehicle_rank steps = true →
      (choose_invalid_route inp vehicle_rank steps o unassigned).1 =
        .error ⟨ERR.INPUT, "Infeasible route for vehicle " ++
          toString (inp.vehicle vehicle_rank).id ++ "."⟩) ∧
    (bounds_contradictory inp vehicle_rank steps = false →
      (o.status1 = .UNDEF ∨ o.status1 = .NOFEAS) →
      (choose_invalid_route inp vehicle_rank steps o unassigned).1 =
        .error ⟨ERR.INPUT, "Infeasible route for vehicle " ++
          toString (inp.vehicle vehicle_rank).id ++ "."⟩) ∧
    (bounds_contradictory inp vehicle_rank steps = false →
      ¬ (o.status1 = .UNDEF ∨ o.status1 = .NOFEAS) →
      (o.status2 = .UNDEF ∨ o.status2 = .NOFEAS) →
      (choose_invalid_route inp vehicle_rank steps o unassigned).1 =
        .error ⟨ERR.INPUT, "Infeasible route for vehicle " ++
          toString (inp.vehicle vehicle_rank).id ++ "."⟩) ∧
    (bounds_contradictory inp vehicle_rank steps = false →
      ¬ (o.status1 = .UNDEF ∨ o.status1 = .NOFEAS) →
      ¬ (o.status2 = .UNDEF ∨ o.status2 = .NOFEAS) →
      ∃ ru : Route × List Nat,
        (choose_invalid_route inp vehicle_rank steps o unassigned).1 =
          .ok ru) := by
  refine ⟨?_, ?_, ?_, ?_⟩
  · intro hb
    simp [choose_invalid_route, hb, infeasible_msg]
  · intro hb hs1
    simp [choose_invalid_route, hb, hs1, infeasible_msg]
  · intro hb hs1 hs2
    simp [choose_invalid_route, hb, hs1, hs2, infeasible_msg]
  · intro hb hs1 hs2
    refine ⟨buildRoute inp vehicle_rank steps
      (mkSolverData inp (inp.vehicle vehicle_rank) steps
        (steps.length - 2)
        (analyzeSteps inp (inp.vehicle vehicle_rank) steps).K
        (computeBounds inp (inp.vehicle vehicle_rank)
          (analyzeSteps inp (inp.vehicle vehicle_rank) steps).durations
          (refineHorizon (analyzeSteps inp (inp.vehicle vehicle_rank) steps))
          steps).horizon_start o) unassigned, ?_⟩
    simp [choose_invalid_route, hb, hs1, hs2]

/-- Oracle used for the concrete validator instances: both rounds
optimal; the columns hold the optimum of the `cexInp`/`cexSteps` MIP. -/
def cexOracle : MipOracle :=
  { status1 := .OPT, status2 := .OPT,
    col := fun c =>
      if c = 1 then 1 else if c = 2 then 26 else if c = 3 then 51
      else if c = 4 then 49 else if c = 7 then 1
      else if c = 8 then 25 else if c = 9 then 25 else 0 }

theorem choose_invalid_route_outcomes_witness :
    (bounds_contradictory cexInp 0 cexSteps = false ∧
      ¬ (cexOracle.status1 = .UNDEF ∨ cexOracle.status1 = .NOFEAS) ∧
      ¬ (cexOracle.status2 = .UNDEF ∨ cexOracle.status2 = .NOFEAS)) ∧
    ∃ ru : Route × List Nat,
      (choose_invalid_route cexInp 0 cexSteps cexOracle []).1 = .ok ru :=
  ⟨⟨by decide, by decide, by decide⟩,
    (choose_invalid_route_outcomes cexInp 0 cexSteps cexOracle []).2.2.2
      (by decide) (by decide) (by decide)⟩

/-- A step sequence with contradictory forced service bounds on the job
step (`at` 10 and `before` 5, so `UB < LB`). -/
def c3Steps : List InputStep :=
  [⟨.START, 0, .SINGLE, ⟨none, none, none⟩⟩,
   ⟨.JOB, 0, .SINGLE, ⟨some 10, none, some 5⟩⟩,
   ⟨.END, 0, .SINGLE, ⟨none, none, none⟩⟩]

/-- C3: on this infeasible input `choose_invalid_route` exits with the
input error, and its traced GLPK events show `glp_create_prob` but never
`glp_delete_prob` nor `glp_free_env` — the error paths leak the solver
resources (only the successful path, lines 782-783, releases them). -/
theorem choose_invalid_route_leak :
    (choose_invalid_route cexInp 0 c3Steps cexOracle []).1 =
      .error ⟨ERR.INPUT, "Infeasible route for vehicle 1."⟩ ∧
    (choose_invalid_route cexInp 0 c3Steps cexOracle []).2 =
      [GlpEvent.create_prob] ∧
    ¬ GlpEvent.delete_prob ∈
      (choose_invalid_route cexInp 0 c3Steps cexOracle []).2 ∧
    ¬ GlpEvent.free_env ∈
      (choose_invalid_route cexInp 0 c3Steps cexOracle []).2 := by
  decide

/-! ### C4/C5 infrastructure: how route generation shapes `sol_steps` -/

theorem headD_append {α : Type} (l1 l2 : List α) (d : α) (h : l1 ≠ []) :
    (l1 ++ l2).headD d = l1.headD d := by
  cases l1 with
  | nil => exact absurd rfl h
  | cons x xs => rfl

theorem getD_append_left {α : Type} (l1 l2 : List α) (j : Nat) (d : α)
    (h : j < l1.length) : (l1 ++ l2).getD j d = l1.getD j d := by
  induction l1 generalizing j with
  | nil => simp at h
  | cons x xs ih =>
    cases j with
    | zero => rfl
    | succ j =>
      simp only [List.length_cons, Nat.succ_lt_succ_iff] at h
      simpa using ih j h

/-- One genStep iteration keeps the head of a non-empty `sol_steps`. -/
theorem genStep_head (inp : VInput) (vr : Nat) (v : VVehicle)
    (sd : SolverData) (g : GenState) (step : InputStep) (d : SolStep)
    (h : g.sol_steps ≠ []) :
    (genStep inp vr v sd g step).sol_steps ≠ [] ∧
    (genStep inp vr v sd g step).sol_steps.headD d = g.sol_steps.headD d := by
  obtain ⟨ty, rank, jt, fs⟩ := step
  cases ty with
  | START => exact ⟨h, rfl⟩
  | JOB =>
    constructor
    · show g.sol_steps ++ [_] ≠ []
      simp
    · show (g.sol_steps ++ [_]).headD d = _
      exact headD_append _ _ _ h
  | BREAK =>
    constructor
    · show g.sol_steps ++ [_] ≠ []
      simp
    · show (g.sol_steps ++ [_]).headD d = _
      exact headD_append _ _ _ h
  | END =>
    constructor
    · show ((if v.has_end = true then _ else _ : GenState)).sol_steps ≠ []
      split_ifs with hv
      all_goals
        first
        | exact h
        | (show g.sol_steps ++ [_] ≠ []
           simp)
    · show ((if v.has_end = true then _ else _ :
        GenState)).sol_steps.headD d = _
      split_ifs with hv
      all_goals
        first
        | rfl
        | (show (g.sol_steps ++ [_]).headD d = _
           exact headD_append _ _ _ h)

/-- The head of `sol_steps` survives the generation loop. -/
theorem genSteps_fold_head (inp : VInput) (vr : Nat) (v : VVehicle)
    (sd : SolverData) (steps : List InputStep) :
    ∀ (g : GenState) (d : SolStep), g.sol_steps ≠ [] →
      (steps.foldl (genStep inp vr v sd) g).sol_steps ≠ [] ∧
      (steps.foldl (genStep inp vr v sd) g).sol_steps.headD d =
        g.sol_steps.headD d := by
  induction steps with
  | nil => exact fun g d h => ⟨h, rfl⟩
  | cons st rest ih =>
    intro g d h
    rw [List.foldl_cons]
    obtain ⟨hne, hhd⟩ := genStep_head inp vr v sd g st d h
    obtain ⟨h1, h2⟩ := ih (genStep inp vr v sd g st) d hne
    exact ⟨h1, by rw [h2, hhd]⟩

/-- Fields of a sol step that the post-loop fixups leave untouched
(`insertViolAt` only adds `PRECEDENCE` to the violation-type set). -/
def step_core_preserved (s s2 : SolStep) : Prop :=
  s2.step_type = s.step_type ∧ s2.rank = s.rank ∧ s2.load = s.load ∧
  s2.arrival = s.arrival ∧ s2.waiting_time = s.waiting_time ∧
  s2.violations.lead_time = s.violations.lead_time ∧
  s2.violations.delay = s.violations.delay ∧
  ∀ t, t ≠ VIOLATION.PRECEDENCE →
    (t ∈ s2.violations.types ↔ t ∈ s.violations.types)

theorem step_core_preserved_refl (s : SolStep) : step_core_preserved s s :=
  ⟨rfl, rfl, rfl, rfl, rfl, rfl, rfl, fun _ _ => Iff.rfl⟩

theorem step_core_preserved_trans {s1 s2 s3 : SolStep}
    (h1 : step_core_preserved s1 s2) (h2 : step_core_preserved s2 s3) :
    step_core_preserved s1 s3 := by
  obtain ⟨a1, b1, c1, d1, e1, f1, g1, m1⟩ := h1
  obtain ⟨a2, b2, c2, d2, e2, f2, g2, m2⟩ := h2
  exact ⟨a2.trans a1, b2.trans b1, c2.trans c1, d2.trans d1, e2.trans e1,
    f2.trans f1, g2.trans g1, fun t ht => (m2 t ht).trans (m1 t ht)⟩

theorem insertViolAt_preserved (l : List SolStep) (idx : Nat) :
    (insertViolAt l idx).length = l.length ∧
    ∀ j d, step_core_preserved (l.getD j d) ((insertViolAt l idx).getD j d) := by
  unfold insertViolAt
  cases hget : l.get? idx with
  | none => exact ⟨rfl, fun j d => step_core_preserved_refl _⟩
  | some s =>
    have hlt : idx < l.length := by
      obtain ⟨hh, -⟩ := List.get?_eq_some.mp hget
      exact hh
    refine ⟨by simp, ?_⟩
    intro j d
    by_cases hj : idx = j
    · subst hj
      rw [getD_set_self _ _ _ _ hlt]
      have hgd : l.getD idx d = s := by
        rw [List.getD_eq_get?, hget]
        rfl
      rw [hgd]
      refine ⟨rfl, rfl, rfl, rfl, rfl, rfl, rfl, ?_⟩
      intro t ht
      simp only [List.mem_insert_iff]
      constructor
      · intro hc
        rcases hc with hc | hc
        · exact absurd hc ht
        · exact hc
      · exact fun hc => Or.inr hc
    · rw [getD_set_ne _ _ _ _ _ hj]
      exact step_core_preserved_refl _

theorem fixupOne_preserved (gg : GenState) (r : Nat) :
    (fixupOne gg r).sol_steps.length = gg.sol_steps.length ∧
    ∀ j d, step_core_preserved (gg.sol_steps.getD j d)
      ((fixupOne gg r).sol_steps.getD j d) := by
  unfold fixupOne
  cases hf : gg.delivery_to_pickup_step_rank.find? (fun p => p.1 == r) with
  | none => exact ⟨rfl, fun j d => step_core_preserved_refl _⟩
  | some p => exact insertViolAt_preserved gg.sol_steps p.2

theorem fixup_fold_preserved (ranks : List Nat) :
    ∀ gg : GenState,
      (ranks.foldl fixupOne gg).sol_steps.length = gg.sol_steps.length ∧
      ∀ j d, step_core_preserved (gg.sol_steps.getD j d)
        ((ranks.foldl fixupOne gg).sol_steps.getD j d) := by
  induction ranks with
  | nil => exact fun gg => ⟨rfl, fun j d => step_core_preserved_refl _⟩
  | cons r rest ih =>
    intro gg
    rw [List.foldl_cons]
    obtain ⟨hl1, hp1⟩ := fixupOne_preserved gg r
    obtain ⟨hl2, hp2⟩ := ih (fixupOne gg r)
    exact ⟨hl2.trans hl1,
      fun j d => step_core_preserved_trans (hp1 j d) (hp2 j d)⟩

theorem finalizeGen_preserved (v : VVehicle) (sd : SolverData)
    (g : GenState) :
    (finalizeGen v sd g).sol_steps.length = g.sol_steps.length ∧
    ∀ j d, step_core_preserved (g.sol_steps.getD j d)
      ((finalizeGen v sd g).sol_steps.getD j d) := by
  have key : ∀ g0 : GenState, g0.sol_steps = g.sol_steps →
      ∀ gres : GenState,
        gres.sol_steps =
          (g0.expected_delivery_ranks.foldl fixupOne g0).sol_steps →
        gres.sol_steps.length = g.sol_steps.length ∧
        ∀ j d, step_core_preserved (g.sol_steps.getD j d)
          (gres.sol_steps.getD j d) := by
    intro g0 h0 gres hres
    obtain ⟨hl, hp⟩ := fixup_fold_preserved g0.expected_delivery_ranks g0
    constructor
    · rw [hres, hl, h0]
    · intro j d
      rw [hres]
      have hh := hp j d
      rw [h0] at hh
      exact hh
  simp only [finalizeGen]
  split_ifs with h1 h2 h2
  all_goals
    first
    | exact key g rfl _ rfl
    | exact key { g with delay := g.delay + sd.end_delay } rfl _ rfl

theorem headD_eq_getD {α : Type} (l : List α) (d : α) :
    l.headD d = l.getD 0 d := by
  cases l <;> rfl

/-- A successful `choose_invalid_route` returns exactly the generated
route. -/
theorem choose_ok_elim (inp : VInput) (vehicle_rank : Nat)
    (steps : List InputStep) (o : MipOracle) (unassigned : List Nat)
    (ru : Route × List Nat)
    (h : (choose_invalid_route inp vehicle_rank steps o unassigned).1 =
      .ok ru) :
    ru = buildRoute inp vehicle_rank steps
      (mkSolverData inp (inp.vehicle vehicle_rank) steps (steps.length - 2)
        (analyzeSteps inp (inp.vehicle vehicle_rank) steps).K
        (computeBounds inp (inp.vehicle vehicle_rank)
          (analyzeSteps inp (inp.vehicle vehicle_rank) steps).durations
          (refineHorizon (analyzeSteps inp (inp.vehicle vehicle_rank) steps))
          steps).horizon_start o) unassigned := by
  simp only [choose_invalid_route] at h
  split at h
  · exact Except.noConfusion h
  · split at h
    · exact Except.noConfusion h
    · split at h
      · exact Except.noConfusion h
      · exact (Except.ok.inj h).symm

theorem initGenState_start (inp : VInput) (v : VVehicle)
    (steps : List InputStep) (sd : SolverData) (unassigned : List Nat)
    (hstart : v.has_start = true) :
    (initGenState inp v steps sd unassigned).sol_steps.length = 1 ∧
    ((initGenState inp v steps sd unassigned).sol_steps.headD
      dfltSolStep).load = startup_load inp steps ∧
    ((initGenState inp v steps sd unassigned).sol_steps.headD
      dfltSolStep).step_type = .START ∧
    (initGenState inp v steps sd unassigned).task_rank = 0 := by
  refine ⟨?_, ?_, ?_, ?_⟩ <;> simp [initGenState, hstart]

/-- C4 (amended): in the route produced by the validator for a vehicle
with a start, the load reported at the start step is the sum of the
delivery amounts of the `SINGLE` jobs of the sequence — the deliveries
of pickup-delivery pairs are not part of the startup load. -/
theorem route_start_load (inp : VInput) (vehicle_rank : Nat)
    (steps : List InputStep) (o : MipOracle) (unassigned : List Nat)
    (ru : Route × List Nat)
    (hstart : (inp.vehicle vehicle_rank).has_start = true)
    (h : (choose_invalid_route inp vehicle_rank steps o unassigned).1 =
      .ok ru) :
    (ru.1.steps.headD dfltSolStep).load = startup_load inp steps ∧
    (ru.1.steps.headD dfltSolStep).step_type = .START := by
  have hru := choose_ok_elim inp vehicle_rank steps o unassigned ru h
  subst hru
  set v := inp.vehicle vehicle_rank with hv
  set sd := mkSolverData inp (inp.vehicle vehicle_rank) steps
    (steps.length - 2) (analyzeSteps inp (inp.vehicle vehicle_rank) steps).K
    (computeBounds inp (inp.vehicle vehicle_rank)
      (analyzeSteps inp (inp.vehicle vehicle_rank) steps).durations
      (refineHorizon (analyzeSteps inp (inp.vehicle vehicle_rank) steps))
      steps).horizon_start o with hsd
  obtain ⟨hlen, hload, htype, -⟩ :=
    initGenState_start inp v steps sd unassigned hstart
  have hne : (initGenState inp v steps sd unassigned).sol_steps ≠ [] := by
    intro hc
    rw [hc] at hlen
    simp at hlen
  obtain ⟨hne1, hhd⟩ := genSteps_fold_head inp vehicle_rank v sd steps
    (initGenState inp v steps sd unassigned) dfltSolStep hne
  obtain ⟨-, hpres⟩ := finalizeGen_preserved v sd
    (steps.foldl (genStep inp vehicle_rank v sd)
      (initGenState inp v steps sd unassigned))
  have hget := hpres 0 dfltSolStep
  obtain ⟨hty, -, hld, -⟩ := hget
  show ((finalizeGen v sd (steps.foldl (genStep inp vehicle_rank v sd)
    (initGenState inp v steps sd unassigned))).sol_steps.headD
      dfltSolStep).load = _ ∧
    ((finalizeGen v sd (steps.foldl (genStep inp vehicle_rank v sd)
      (initGenState inp v steps sd unassigned))).sol_steps.headD
        dfltSolStep).step_type = _
  rw [headD_eq_getD]
  constructor
  · rw [hld, ← headD_eq_getD, hhd, hload]
  · rw [hty, ← headD_eq_getD, hhd, htype]

/-- C4 counterexample data: a single job delivering `[1]` and the
delivery half of a pickup-delivery pair delivering `[5]`. -/
def c4Inp : VInput :=
  { jobs := [⟨1, .SINGLE, 1, 0, 0, [0], [1], [DEFAULT_TW]⟩,
             ⟨2, .DELIVERY, 2, 0, 0, [0], [5], [DEFAULT_TW]⟩]
  , vehicles := [⟨1, some 0, some 0, [10], DEFAULT_TW, [], "v"⟩]
  , matrix := fun _ _ => 1
  , amount_size := 1
  , vehicle_ok_with_job := fun _ _ => true }

def c4Steps : List InputStep :=
  [⟨.START, 0, .SINGLE, ⟨none, none, none⟩⟩,
   ⟨.JOB, 0, .SINGLE, ⟨none, none, none⟩⟩,
   ⟨.JOB, 1, .DELIVERY, ⟨none, none, none⟩⟩,
   ⟨.END, 0, .SINGLE, ⟨none, none, none⟩⟩]

def c4Oracle : MipOracle := ⟨.OPT, .OPT, fun _ => 0⟩

def dfltRoute : Route := ⟨0, [], 0, 0, 0, 0, 0, [], [], "", ⟨0, 0, 0, 0, []⟩⟩

/-- C4 counterexample: the claimed startup load (deliveries of singles
and of pickup-delivery pairs) is `[6]`, but the validator starts the
route with load `[1]` — only the `SINGLE` deliveries. -/
theorem startup_load_spec_mismatch :
    spec_startup_load c4Inp c4Steps = [6] ∧
    startup_load c4Inp c4Steps = [1] ∧
    ((choose_invalid_route c4Inp 0 c4Steps c4Oracle []).1.toOption.map
      fun ru => (ru.1.steps.headD dfltSolStep).load) = some [1] := by
  decide

theorem route_start_load_witness :
    ((c4Inp.vehicle 0).has_start = true ∧
      (choose_invalid_route c4Inp 0 c4Steps c4Oracle []).1 =
        .ok ((choose_invalid_route c4Inp 0 c4Steps c4Oracle
          []).1.toOption.getD (dfltRoute, []))) ∧
    ((((choose_invalid_route c4Inp 0 c4Steps c4Oracle []).1.toOption.getD
        (dfltRoute, [])).1.steps.headD dfltSolStep).load =
      startup_load c4Inp c4Steps ∧
     (((choose_invalid_route c4Inp 0 c4Steps c4Oracle []).1.toOption.getD
        (dfltRoute, [])).1.steps.headD dfltSolStep).step_type = .START) :=
  ⟨⟨by decide, by decide⟩,
    route_start_load c4Inp 0 c4Steps c4Oracle [] _ (by decide) (by decide)⟩

/-! ### C5: per-task violation reporting and the end step -/

theorem mem_insertIf (b : Bool) (x y : VIOLATION) (l : List VIOLATION) :
    y ∈ insertIf b x l ↔ (b = true ∧ y = x) ∨ y ∈ l := by
  cases b <;> simp [insertIf, List.mem_insert_iff]

theorem getD_append_last {α : Type} (l : List α) (x : α) (d : α) :
    (l ++ [x]).getD l.length d = x := by
  have h := getD_append_len l [x] 0 d
  simpa using h

/-- The time window the validator measures a `JOB` or `BREAK` step
against: the window of the solver-picked rank. -/
def task_tw (inp : VInput) (v : VVehicle) (sd : SolverData)
    (st : InputStep) (k : Nat) : TimeWindow :=
  match st.type with
  | .BREAK => (v.brk st.rank).tws.getD (sd.task_tw_ranks.getD k 0) DEFAULT_TW
  | _ => (inp.job st.rank).tws.getD (sd.task_tw_ranks.getD k 0) DEFAULT_TW

/-- Lead-time / delay reporting expected at the `k`-th task of the
sequence (lines 869-896 and 952-979): lead time
`window.start - service_start` exactly when the service starts before
the chosen window opens, delay `service_start - window.stop` exactly
when it starts after the window closes. -/
def task_viol_spec (inp : VInput) (v : VVehicle) (sd : SolverData)
    (st : InputStep) (k : Nat) (s : SolStep) : Prop :=
  let service_start := sd.task_ETA.getD k 0
  let tw := task_tw inp v sd st k
  (VIOLATION.LEAD_TIME ∈ s.violations.types ↔ service_start < tw.start) ∧
  s.violations.lead_time =
    (if service_start < tw.start then tw.start - service_start else 0) ∧
  (VIOLATION.DELAY ∈ s.violations.types ↔ tw.stop < service_start) ∧
  s.violations.delay =
    (if tw.stop < service_start then service_start - tw.stop else 0)

theorem task_viol_spec_core (inp : VInput) (v : VVehicle)
    (sd : SolverData) (st : InputStep) (k : Nat) {s s2 : SolStep}
    (hc : step_core_preserved s s2)
    (hs : task_viol_spec inp v sd st k s) :
    task_viol_spec inp v sd st k s2 := by
  obtain ⟨-, -, -, -, -, hlt, hdl, hmem⟩ := hc
  obtain ⟨a1, a2, a3, a4⟩ := hs
  refine ⟨?_, ?_, ?_, ?_⟩
  · rw [hmem VIOLATION.LEAD_TIME (by decide)]
    exact a1
  · rw [hlt]
    exact a2
  · rw [hmem VIOLATION.DELAY (by decide)]
    exact a3
  · rw [hdl]
    exact a4

theorem genStep_start (inp : VInput) (vr : Nat) (v : VVehicle)
    (sd : SolverData) (g : GenState) (s0 : InputStep)
    (hs : s0.type = .START) :
    genStep inp vr v sd g s0 = g := by
  obtain ⟨ty, rnk, jt, fs⟩ := s0
  cases ty with
  | START => rfl
  | JOB => simp at hs
  | BREAK => simp at hs
  | END => simp at hs

theorem initGenState_len (inp : VInput) (v : VVehicle)
    (steps : List InputStep) (sd : SolverData) (unassigned : List Nat) :
    (initGenState inp v steps sd unassigned).task_rank = 0 ∧
    (initGenState inp v steps sd unassigned).sol_steps.length =
      if v.has_start = true then 1 else 0 := by
  simp only [initGenState]
  split_ifs with h <;> exact ⟨rfl, rfl⟩

theorem genStep_prefix (inp : VInput) (vr : Nat) (v : VVehicle)
    (sd : SolverData) (g : GenState) (st : InputStep) :
    g.sol_steps.length ≤ (genStep inp vr v sd g st).sol_steps.length ∧
    ∀ j d, j < g.sol_steps.length →
      (genStep inp vr v sd g st).sol_steps.getD j d =
        g.sol_steps.getD j d := by
  obtain ⟨ty, rnk, jt, fs⟩ := st
  cases ty with
  | START => exact ⟨le_refl _, fun j d hj => rfl⟩
  | JOB =>
    constructor
    · show g.sol_steps.length ≤ (g.sol_steps ++ [_]).length
      simp
    · intro j d hj
      show (g.sol_steps ++ [_]).getD j d = _
      exact getD_append_left _ _ _ _ hj
  | BREAK =>
    constructor
    · show g.sol_steps.length ≤ (g.sol_steps ++ [_]).length
      simp
    · intro j d hj
      show (g.sol_steps ++ [_]).getD j d = _
      exact getD_append_left _ _ _ _ hj
  | END =>
    constructor
    · show g.sol_steps.length ≤
        ((if v.has_end = true then _ else _ : GenState)).sol_steps.length
      split_ifs with hv
      all_goals
        first
        | exact le_refl _
        | (show g.sol_steps.length ≤ (g.sol_steps ++ [_]).length
           simp)
    · intro j d hj
      show ((if v.has_end = true then _ else _ :
        GenState)).sol_steps.getD j d = _
      split_ifs with hv
      all_goals
        first
        | rfl
        | (show (g.sol_steps ++ [_]).getD j d = _
           exact getD_append_left _ _ _ _ hj)

/-- Processing a `JOB` or `BREAK` step appends exactly one sol step,
whose lead-time / delay reporting follows `task_viol_spec` at the
current task rank. -/
theorem genStep_task (inp : VInput) (vr : Nat) (v : VVehicle)
    (sd : SolverData) (g : GenState) (st : InputStep)
    (hst : st.type = .JOB ∨ st.type = .BREAK) :
    (genStep inp vr v sd g st).task_rank = g.task_rank + 1 ∧
    (genStep inp vr v sd g st).sol_steps.length =
      g.sol_steps.length + 1 ∧
    (∀ j d, j < g.sol_steps.length →
      (genStep inp vr v sd g st).sol_steps.getD j d =
        g.sol_steps.getD j d) ∧
    ∀ d, task_viol_spec inp v sd st g.task_rank
      ((genStep inp vr v sd g st).sol_steps.getD g.sol_steps.length d) := by
  obtain ⟨ty, rnk, jt, fs⟩ := st
  cases ty with
  | START => simp at hst
  | END => simp at hst
  | JOB =>
    refine ⟨rfl, ?_, ?_, ?_⟩
    · show (g.sol_steps ++ [_]).length = _
      simp
    · intro j d hj
      show (g.sol_steps ++ [_]).getD j d = _
      exact getD_append_left _ _ _ _ hj
    · intro d
      show task_viol_spec inp v sd _ g.task_rank
        ((g.sol_steps ++ [_]).getD g.sol_steps.length d)
      rw [getD_append_last]
      simp only [task_viol_spec]
      refine ⟨?_, ?_, ?_, ?_⟩
      · simp [mem_insertIf, task_tw]
      · rfl
      · simp [mem_insertIf, task_tw]
      · rfl
  | BREAK =>
    refine ⟨rfl, ?_, ?_, ?_⟩
    · show (g.sol_steps ++ [_]).length = _
      simp
    · intro j d hj
      show (g.sol_steps ++ [_]).getD j d = _
      exact getD_append_left _ _ _ _ hj
    · intro d
      show task_viol_spec inp v sd _ g.task_rank
        ((g.sol_steps ++ [_]).getD g.sol_steps.length d)
      rw [getD_append_last]
      simp only [task_viol_spec]
      refine ⟨?_, ?_, ?_, ?_⟩
      · simp [mem_insertIf, task_tw]
      · rfl
      · simp [mem_insertIf, task_tw]
      · rfl

/-- Processing the `END` step of a vehicle with an end appends the end
sol step, which carries `DELAY` exactly when the solved vehicle end time
exceeds the vehicle window close (lines 1006-1012). -/
theorem genStep_end_emit (inp : VInput) (vr : Nat) (v : VVehicle)
    (sd : SolverData) (g : GenState) (e0 : InputStep)
    (he : e0.type = .END) (hhe : v.has_end = true) :
    (genStep inp vr v sd g e0).sol_steps.length =
      g.sol_steps.length + 1 ∧
    ∀ d,
      ((genStep inp vr v sd g e0).sol_steps.getD g.sol_steps.length
        d).step_type = .END ∧
      (VIOLATION.DELAY ∈ ((genStep inp vr v sd g e0).sol_steps.getD
          g.sol_steps.length d).violations.types ↔
        v.tw.stop < sd.v_end) ∧
      ((genStep inp vr v sd g e0).sol_steps.getD g.sol_steps.length
          d).violations.delay =
        (if v.tw.stop < sd.v_end then sd.v_end - v.tw.stop else 0) := by
  obtain ⟨ty, rnk, jt, fs⟩ := e0
  cases ty with
  | START => simp at he
  | JOB => simp at he
  | BREAK => simp at he
  | END =>
    refine ⟨?_, fun d => ⟨?_, ?_, ?_⟩⟩
    · show ((if v.has_end = true then _ else _ :
        GenState)).sol_steps.length = _
      rw [if_pos hhe]
      show (g.sol_steps ++ [_]).length = _
      simp
    · show (((if v.has_end = true then _ else _ :
        GenState)).sol_steps.getD g.sol_steps.length d).step_type = .END
      rw [if_pos hhe]
      show ((g.sol_steps ++ [_]).getD g.sol_steps.length d).step_type =
        .END
      rw [getD_append_last]
    · show VIOLATION.DELAY ∈ (((if v.has_end = true then _ else _ :
        GenState)).sol_steps.getD g.sol_steps.length
          d).violations.types ↔ _
      rw [if_pos hhe]
      show VIOLATION.DELAY ∈ ((g.sol_steps ++ [_]).getD
        g.sol_steps.length d).violations.types ↔ _
      rw [getD_append_last]
      simp [mem_insertIf]
    · show (((if v.has_end = true then _ else _ :
        GenState)).sol_steps.getD g.sol_steps.length
          d).violations.delay = _
      rw [if_pos hhe]
      show ((g.sol_steps ++ [_]).getD g.sol_steps.length
        d).violations.delay = _
      rw [getD_append_last]

/-- Over a block of `JOB` / `BREAK` steps the generation loop appends
one sol step per input step, leaves the earlier sol steps untouched,
and each appended step obeys `task_viol_spec` at its task rank. -/
theorem genSteps_mid (inp : VInput) (vr : Nat) (v : VVehicle)
    (sd : SolverData) (mid : List InputStep) :
    (∀ st ∈ mid, st.type = .JOB ∨ st.type = .BREAK) →
    ∀ g : GenState,
      (mid.foldl (genStep inp vr v sd) g).task_rank =
        g.task_rank + mid.length ∧
      (mid.foldl (genStep inp vr v sd) g).sol_steps.length =
        g.sol_steps.length + mid.length ∧
      (∀ j d, j < g.sol_steps.length →
        (mid.foldl (genStep inp vr v sd) g).sol_steps.getD j d =
          g.sol_steps.getD j d) ∧
      (∀ k d, k < mid.length →
        task_viol_spec inp v sd (mid.getD k dfltInputStep)
          (g.task_rank + k)
          ((mid.foldl (genStep inp vr v sd) g).sol_steps.getD
            (g.sol_steps.length + k) d)) := by
  induction mid with
  | nil =>
    intro _ g
    exact ⟨rfl, rfl, fun j d _ => rfl, fun k d hk => absurd hk (by simp)⟩
  | cons st rest ih =>
    intro hmid g
    have hst := hmid st (List.mem_cons_self st rest)
    have hrest : ∀ s ∈ rest, s.type = .JOB ∨ s.type = .BREAK :=
      fun s hs => hmid s (List.mem_cons_of_mem st hs)
    obtain ⟨h1, h2, h3, h4⟩ := genStep_task inp vr v sd g st hst
    obtain ⟨i1, i2, i3, i4⟩ := ih hrest (genStep inp vr v sd g st)
    rw [List.foldl_cons]
    refine ⟨?_, ?_, ?_, ?_⟩
    · rw [i1, h1, List.length_cons]
      omega
    · rw [i2, h2, List.length_cons]
      omega
    · intro j d hj
      rw [i3 j d (by rw [h2]; omega), h3 j d hj]
    · intro k d hk
      cases k with
      | zero =>
        have hj0 : g.sol_steps.length <
            (genStep inp vr v sd g st).sol_steps.length := by
          rw [h2]
          omega
        have hp := i3 g.sol_steps.length d hj0
        rw [Nat.add_zero, Nat.add_zero, hp, List.getD_cons_zero]
        exact h4 d
      | succ n =>
        have hn : n < rest.length := by
          rw [List.length_cons] at hk
          omega
        have hr := i4 n d hn
        rw [h1, h2] at hr
        have e1 : g.task_rank + 1 + n = g.task_rank + (n + 1) := by omega
        have e2 : g.sol_steps.length + 1 + n =
            g.sol_steps.length + (n + 1) := by omega
        rw [e1, e2] at hr
        rw [List.getD_cons_succ]
        exact hr

/-- C5 (amended): in the route `choose_invalid_route` returns for a
step sequence `start :: mid ++ [end]` with `mid` all jobs and breaks,
every job or break step reports a `LEAD_TIME` violation of magnitude
(chosen window open minus service start) exactly when its service
starts before the chosen window opens and a `DELAY` violation of
magnitude (service start minus window close) exactly when it starts
after the window closes; the end step carries `VIOLATION::DELAY` and a
positive delay (of magnitude vehicle-end minus window close) exactly
when the solved vehicle end time exceeds the vehicle window close — a
route whose service plus travel exceeds the vehicle window is not by
itself guaranteed an end delay, since the solver may start the vehicle
before its window instead. -/
theorem validator_violation_reporting (inp : VInput) (vr : Nat)
    (steps : List InputStep) (o : MipOracle) (unassigned : List Nat)
    (ru : Route × List Nat) (s0 e0 : InputStep) (mid : List InputStep)
    (v : VVehicle) (sd : SolverData) (off : Nat)
    (hv : v = inp.vehicle vr)
    (hsd : sd = mkSolverData inp (inp.vehicle vr) steps
      (steps.length - 2) (analyzeSteps inp (inp.vehicle vr) steps).K
      (computeBounds inp (inp.vehicle vr)
        (analyzeSteps inp (inp.vehicle vr) steps).durations
        (refineHorizon (analyzeSteps inp (inp.vehicle vr) steps))
        steps).horizon_start o)
    (hoff : off = if v.has_start = true then 1 else 0)
    (hsteps : steps = s0 :: mid ++ [e0])
    (hs0 : s0.type = .START) (he0 : e0.type = .END)
    (hmid : ∀ st ∈ mid, st.type = .JOB ∨ st.type = .BREAK)
    (hok : (choose_invalid_route inp vr steps o unassigned).1 =
      .ok ru) :
    (∀ k d, k < mid.length →
      task_viol_spec inp v sd (mid.getD k dfltInputStep) k
        (ru.1.steps.getD (off + k) d)) ∧
    (v.has_end = true → ∀ d,
      (ru.1.steps.getD (off + mid.length) d).step_type = .END ∧
      (VIOLATION.DELAY ∈
          (ru.1.steps.getD (off + mid.length) d).violations.types ↔
        v.tw.stop < sd.v_end) ∧
      (ru.1.steps.getD (off + mid.length) d).violations.delay =
        (if v.tw.stop < sd.v_end then sd.v_end - v.tw.stop else 0) ∧
      (0 < (ru.1.steps.getD (off + mid.length) d).violations.delay ↔
        v.tw.stop < sd.v_end)) := by
  subst hv
  subst hoff
  have hru := choose_ok_elim inp vr steps o unassigned ru hok
  rw [← hsd] at hru
  subst hru
  subst hsteps
  have hbr : (buildRoute inp vr (s0 :: mid ++ [e0]) sd
      unassigned).1.steps =
      (finalizeGen (inp.vehicle vr) sd
        ((s0 :: mid ++ [e0]).foldl
          (genStep inp vr (inp.vehicle vr) sd)
          (initGenState inp (inp.vehicle vr) (s0 :: mid ++ [e0]) sd
            unassigned))).sol_steps := rfl
  rw [hbr]
  have hfold : (s0 :: mid ++ [e0]).foldl
      (genStep inp vr (inp.vehicle vr) sd)
      (initGenState inp (inp.vehicle vr) (s0 :: mid ++ [e0]) sd
        unassigned) =
      genStep inp vr (inp.vehicle vr) sd
        (mid.foldl (genStep inp vr (inp.vehicle vr) sd)
          (initGenState inp (inp.vehicle vr) (s0 :: mid ++ [e0]) sd
            unassigned)) e0 := by
    have hone : ∀ x : GenState,
        [e0].foldl (genStep inp vr (inp.vehicle vr) sd) x =
          genStep inp vr (inp.vehicle vr) sd x e0 := fun x => rfl
    have htwo : ∀ x : GenState,
        (s0 :: mid).foldl (genStep inp vr (inp.vehicle vr) sd) x =
          mid.foldl (genStep inp vr (inp.vehicle vr) sd)
            (genStep inp vr (inp.vehicle vr) sd x s0) := fun x => rfl
    rw [List.foldl_append, hone, htwo,
      genStep_start inp vr (inp.vehicle vr) sd _ s0 hs0]
  rw [hfold]
  obtain ⟨h0tr, h0len⟩ := initGenState_len inp (inp.vehicle vr)
    (s0 :: mid ++ [e0]) sd unassigned
  obtain ⟨-, m2, -, m4⟩ := genSteps_mid inp vr (inp.vehicle vr) sd mid
    hmid (initGenState inp (inp.vehicle vr) (s0 :: mid ++ [e0]) sd
      unassigned)
  obtain ⟨-, pe⟩ := genStep_prefix inp vr (inp.vehicle vr) sd
    (mid.foldl (genStep inp vr (inp.vehicle vr) sd)
      (initGenState inp (inp.vehicle vr) (s0 :: mid ++ [e0]) sd
        unassigned)) e0
  obtain ⟨-, fp⟩ := finalizeGen_preserved (inp.vehicle vr) sd
    (genStep inp vr (inp.vehicle vr) sd
      (mid.foldl (genStep inp vr (inp.vehicle vr) sd)
        (initGenState inp (inp.vehicle vr) (s0 :: mid ++ [e0]) sd
          unassigned)) e0)
  constructor
  · intro k d hk
    rw [← h0len]
    have hm := m4 k d hk
    rw [h0tr, Nat.zero_add] at hm
    have hpe := pe ((initGenState inp (inp.vehicle vr)
      (s0 :: mid ++ [e0]) sd unassigned).sol_steps.length + k) d
      (by rw [m2]; omega)
    rw [← hpe] at hm
    exact task_viol_spec_core inp (inp.vehicle vr) sd _ _
      (fp ((initGenState inp (inp.vehicle vr) (s0 :: mid ++ [e0]) sd
        unassigned).sol_steps.length + k) d) hm
  · intro hhe d
    obtain ⟨-, e2⟩ := genStep_end_emit inp vr (inp.vehicle vr) sd
      (mid.foldl (genStep inp vr (inp.vehicle vr) sd)
        (initGenState inp (inp.vehicle vr) (s0 :: mid ++ [e0]) sd
          unassigned)) e0 he0 hhe
    obtain ⟨t1, t2, t3⟩ := e2 d
    rw [← h0len, ← m2]
    obtain ⟨hty, -, -, -, -, -, hdl, hmem⟩ := fp
      ((mid.foldl (genStep inp vr (inp.vehicle vr) sd)
        (initGenState inp (inp.vehicle vr) (s0 :: mid ++ [e0]) sd
          unassigned)).sol_steps.length) d
    refine ⟨?_, ?_, ?_, ?_⟩
    · rw [hty]
      exact t1
    · rw [hmem VIOLATION.DELAY (by decide)]
      exact t2
    · rw [hdl]
      exact t3
    · rw [hdl, t3]
      split_ifs with hco
      · omega
      · simpa using hco

def c5s0 : InputStep := ⟨.START, 0, .SINGLE, ⟨none, none, none⟩⟩

def c5mid : List InputStep := [⟨.JOB, 0, .SINGLE, ⟨none, none, none⟩⟩]

def c5e0 : InputStep := ⟨.END, 0, .SINGLE, ⟨none, none, none⟩⟩

def c5sd : SolverData :=
  mkSolverData cexInp (cexInp.vehicle 0) cexSteps
    (cexSteps.length - 2) (analyzeSteps cexInp (cexInp.vehicle 0)
      cexSteps).K
    (computeBounds cexInp (cexInp.vehicle 0)
      (analyzeSteps cexInp (cexInp.vehicle 0) cexSteps).durations
      (refineHorizon (analyzeSteps cexInp (cexInp.vehicle 0) cexSteps))
      cexSteps).horizon_start cexOracle

def c5ru : Route × List Nat :=
  (choose_invalid_route cexInp 0 cexSteps cexOracle []).1.toOption.getD
    (dfltRoute, [])

/-- C5 counterexample: on `cexInp` / `cexSteps` the total service plus
travel (50) exceeds the vehicle window `[100, 101]` (length 1), yet the
end step of the route the validator returns carries delay `0` and no
`DELAY` violation: the solver assignment starts the vehicle at 51,
before its window, so the slack shows up as lead time 49 on the start
step instead. The assignment is a consistent schedule: arrivals
`[51, 76, 101]` chain by the travel time 25 and sit inside the derived
per-step bounds `[50, 75, 100]` / `[151, 151, 151]`. -/
theorem end_delay_spec_mismatch :
    ((analyzeSteps cexInp (cexInp.vehicle 0) cexSteps).service_sum +
        (analyzeSteps cexInp (cexInp.vehicle 0) cexSteps).duration_sum =
      50 ∧
      (cexInp.vehicle 0).tw.start = 100 ∧
      (cexInp.vehicle 0).tw.stop = 101) ∧
    ((choose_invalid_route cexInp 0 cexSteps cexOracle
        []).1.toOption.map
        (fun ru => ((ru.1.steps.getD 2 dfltSolStep).step_type,
          (ru.1.steps.getD 2 dfltSolStep).violations.delay,
          decide (VIOLATION.DELAY ∈
            (ru.1.steps.getD 2 dfltSolStep).violations.types),
          (ru.1.steps.getD 0 dfltSolStep).violations.lead_time)) =
      some (.END, 0, false, 49)) ∧
    ((choose_invalid_route cexInp 0 cexSteps cexOracle
        []).1.toOption.map
        (fun ru => ru.1.steps.map fun st => st.arrival)) =
      some [51, 76, 101] ∧
    (computeBounds cexInp (cexInp.vehicle 0)
        (analyzeSteps cexInp (cexInp.vehicle 0) cexSteps).durations
        (refineHorizon (analyzeSteps cexInp (cexInp.vehicle 0)
          cexSteps)) cexSteps).t_i_LB = [50, 75, 100] ∧
    (computeBounds cexInp (cexInp.vehicle 0)
        (analyzeSteps cexInp (cexInp.vehicle 0) cexSteps).durations
        (refineHorizon (analyzeSteps cexInp (cexInp.vehicle 0)
          cexSteps)) cexSteps).t_i_UB = [151, 151, 151] := by
  decide

theorem validator_violation_reporting_witness :
    ((cexSteps = c5s0 :: c5mid ++ [c5e0]) ∧
      c5s0.type = .START ∧ c5e0.type = .END ∧
      (∀ st ∈ c5mid, st.type = .JOB ∨ st.type = .BREAK) ∧
      (choose_invalid_route cexInp 0 cexSteps cexOracle []).1 =
        .ok c5ru) ∧
    ((∀ k d, k < c5mid.length →
        task_viol_spec cexInp (cexInp.vehicle 0) c5sd
          (c5mid.getD k dfltInputStep) k
          (c5ru.1.steps.getD (1 + k) d)) ∧
      ((cexInp.vehicle 0).has_end = true → ∀ d,
        (c5ru.1.steps.getD (1 + c5mid.length) d).step_type = .END ∧
        (VIOLATION.DELAY ∈
            (c5ru.1.steps.getD (1 + c5mid.length)
              d).violations.types ↔
          (cexInp.vehicle 0).tw.stop < c5sd.v_end) ∧
        (c5ru.1.steps.getD (1 + c5mid.length) d).violations.delay =
          (if (cexInp.vehicle 0).tw.stop < c5sd.v_end then
            c5sd.v_end - (cexInp.vehicle 0).tw.stop else 0) ∧
        (0 < (c5ru.1.steps.getD (1 + c5mid.length)
            d).violations.delay ↔
          (cexInp.vehicle 0).tw.stop < c5sd.v_end))) :=
  ⟨⟨rfl, rfl, rfl, by decide, by decide⟩,
    validator_violation_reporting cexInp 0 cexSteps cexOracle [] c5ru
      c5s0 c5e0 c5mid (cexInp.vehicle 0) c5sd 1 rfl rfl (by decide)
      rfl rfl rfl (by decide) (by decide)⟩

end Vroom
